import Mathlib

/-!
# Verification of the Pay-Per-Thought metered execution engine

This file embeds the core of the `pay-per-thought-agent` repository:

* `X402PaymentGate.sol` — the Payment Ledger (budget custody, per-step
  authorization / confirmation / refund, settlement), together with the
  `MockERC20` token taken from the repository's own test suite
  (`contracts/test/X402PaymentGate.t.sol`);
* `agent/executor.ts` — the Step Scheduler (`Executor.executeAll` and its
  payment / tool helpers);
* `agent/synthesizer.ts` — source deduplication (`deduplicateSources`).

Solidity `uint256` values are modelled as `Nat`; Solidity 0.8 checked
arithmetic can differ from `Nat` only by reverting on sums reaching `2^256`,
which no theorem or counterexample below relies on (all traces use small
values).  A reverted call (`require` failure) leaves the entire state
unchanged, which the embedding captures by running each call through
`stepCall`, keeping the pre-state on error.
-/

namespace X402

/-- EVM addresses, modelled as naturals; `0` is `address(0)`. -/
abbrev Addr := Nat

/-- ERC-20 token state, from `MockERC20` in the repository's test suite
(`name`/`symbol`/`decimals`/`totalSupply` carry no behaviour and are
omitted). -/
structure TokenState where
  balances : Addr → Nat
  allowances : Addr → Addr → Nat

/-- `MockERC20.transfer` — reverts on insufficient balance. -/
def TokenState.transfer (t : TokenState) (caller toAddr : Addr) (amount : Nat) :
    Except String TokenState :=
  if t.balances caller < amount then .error "Insufficient balance"
  else
    let b1 : Addr → Nat := fun a => if a = caller then t.balances a - amount else t.balances a
    let b2 : Addr → Nat := fun a => if a = toAddr then b1 a + amount else b1 a
    .ok { t with balances := b2 }

/-- `MockERC20.transferFrom` — reverts on insufficient balance or allowance. -/
def TokenState.transferFrom (t : TokenState) (caller fromAddr toAddr : Addr) (amount : Nat) :
    Except String TokenState :=
  if t.balances fromAddr < amount then .error "Insufficient balance"
  else if t.allowances fromAddr caller < amount then .error "Insufficient allowance"
  else
    let al : Addr → Addr → Nat := fun a b =>
      if a = fromAddr ∧ b = caller then t.allowances a b - amount else t.allowances a b
    let b1 : Addr → Nat := fun a => if a = fromAddr then t.balances a - amount else t.balances a
    let b2 : Addr → Nat := fun a => if a = toAddr then b1 a + amount else b1 a
    .ok { balances := b2, allowances := al }

/-- `MockERC20.mint` — mints freely. -/
def TokenState.mint (t : TokenState) (toAddr : Addr) (amount : Nat) : TokenState :=
  { t with balances := fun a => if a = toAddr then t.balances a + amount else t.balances a }

/-- `MockERC20.approve`. -/
def TokenState.approve (t : TokenState) (caller spender : Addr) (amount : Nat) : TokenState :=
  { t with allowances := fun a b =>
      if a = caller ∧ b = spender then amount else t.allowances a b }

/-- `X402PaymentGate.Session` (Solidity zero-initialised struct for absent
keys, see `emptySession`). -/
structure Session where
  payer : Addr
  totalLocked : Nat
  totalSpent : Nat
  stepCount : Nat
  settled : Bool

def emptySession : Session := ⟨0, 0, 0, 0, false⟩

/-- `X402PaymentGate.StepPayment`. -/
structure StepPayment where
  amount : Nat
  authorized : Bool
  confirmed : Bool
  refunded : Bool

def emptyStepPayment : StepPayment := ⟨0, false, false, false⟩

/-- Key of the nested mapping `stepPayments[sessionId][stepId]`. -/
abbrev SKey := Nat × Nat

/-- Lookup in the `stepPayments` mapping (zero-initialised default). -/
def spLookup (l : List (SKey × StepPayment)) (k : SKey) : StepPayment :=
  match l.find? (fun e => decide (e.1 = k)) with
  | some e => e.2
  | none => emptyStepPayment

/-- Storage write `stepPayments[sessionId][stepId] = v`. -/
def spSet (l : List (SKey × StepPayment)) (k : SKey) (v : StepPayment) :
    List (SKey × StepPayment) :=
  (k, v) :: l.filter (fun e => decide (e.1 ≠ k))

/-- Full contract storage plus the token it escrows. -/
structure GateState where
  sessions : Nat → Session
  stepPayments : List (SKey × StepPayment)
  token : TokenState

/-- The contract's immutables (`operator`, and the gate's own address used as
the `address(this)` escrow account). -/
structure Cfg where
  operator : Addr
  gateAddr : Addr

/-- `X402PaymentGate.lockBudget`. -/
def lockBudget (cfg : Cfg) (s : GateState) (sender sessionId totalAmount stepCount : Nat) :
    Except String GateState :=
  if (s.sessions sessionId).payer ≠ 0 then .error "X402: session exists"
  else if totalAmount = 0 then .error "X402: zero amount"
  else if stepCount = 0 then .error "X402: zero steps"
  else
    match s.token.transferFrom cfg.gateAddr sender cfg.gateAddr totalAmount with
    | .error e => .error e
    | .ok t' =>
      .ok { s with
        token := t',
        sessions := fun sid =>
          if sid = sessionId then ⟨sender, totalAmount, 0, stepCount, false⟩
          else s.sessions sid }

/-- `X402PaymentGate.authorizePayment` (modifiers `onlyOperator`,
`sessionExists`, `sessionNotSettled`, then the body's `require`s, in source
order). -/
def authorizePayment (cfg : Cfg) (s : GateState) (sender sessionId stepId amount : Nat) :
    Except String GateState :=
  if sender ≠ cfg.operator then .error "X402: caller is not operator"
  else if (s.sessions sessionId).payer = 0 then .error "X402: session not found"
  else if (s.sessions sessionId).settled then .error "X402: session already settled"
  else if ¬ ((s.sessions sessionId).totalSpent + amount ≤ (s.sessions sessionId).totalLocked) then
    .error "X402: exceeds budget"
  else if (spLookup s.stepPayments (sessionId, stepId)).authorized then
    .error "X402: step already authorized"
  else
    .ok { s with stepPayments := spSet s.stepPayments (sessionId, stepId) ⟨amount, true, false, false⟩ }

/-- `X402PaymentGate.confirmExecution`. -/
def confirmExecution (cfg : Cfg) (s : GateState) (sender sessionId stepId : Nat) :
    Except String GateState :=
  if sender ≠ cfg.operator then .error "X402: caller is not operator"
  else if (s.sessions sessionId).payer = 0 then .error "X402: session not found"
  else if (s.sessions sessionId).settled then .error "X402: session already settled"
  else if ¬ (spLookup s.stepPayments (sessionId, stepId)).authorized then
    .error "X402: step not authorized"
  else if (spLookup s.stepPayments (sessionId, stepId)).confirmed then
    .error "X402: already confirmed"
  else if (spLookup s.stepPayments (sessionId, stepId)).refunded then
    .error "X402: already refunded"
  else
    .ok { s with
      stepPayments := spSet s.stepPayments (sessionId, stepId)
        ⟨(spLookup s.stepPayments (sessionId, stepId)).amount,
          (spLookup s.stepPayments (sessionId, stepId)).authorized, true,
          (spLookup s.stepPayments (sessionId, stepId)).refunded⟩,
      sessions := fun sid =>
        if sid = sessionId then
          ⟨(s.sessions sid).payer, (s.sessions sid).totalLocked,
            (s.sessions sid).totalSpent + (spLookup s.stepPayments (sessionId, stepId)).amount,
            (s.sessions sid).stepCount, (s.sessions sid).settled⟩
        else s.sessions sid }

/-- `X402PaymentGate.refund`. -/
def refund (cfg : Cfg) (s : GateState) (sender sessionId stepId : Nat) :
    Except String GateState :=
  if sender ≠ cfg.operator then .error "X402: caller is not operator"
  else if (s.sessions sessionId).payer = 0 then .error "X402: session not found"
  else if (s.sessions sessionId).settled then .error "X402: session already settled"
  else if ¬ (spLookup s.stepPayments (sessionId, stepId)).authorized then
    .error "X402: step not authorized"
  else if (spLookup s.stepPayments (sessionId, stepId)).confirmed then
    .error "X402: already confirmed"
  else if (spLookup s.stepPayments (sessionId, stepId)).refunded then
    .error "X402: already refunded"
  else
    .ok { s with
      stepPayments := spSet s.stepPayments (sessionId, stepId)
        ⟨(spLookup s.stepPayments (sessionId, stepId)).amount,
          (spLookup s.stepPayments (sessionId, stepId)).authorized,
          (spLookup s.stepPayments (sessionId, stepId)).confirmed, true⟩ }

/-- `X402PaymentGate.settleBudget`.  The storage writes precede the two token
transfers in the source; a failed transfer reverts the whole call, which the
embedding reflects by returning `.error` (no new state) in that case. -/
def settleBudget (cfg : Cfg) (s : GateState) (sender sessionId totalSpent : Nat) :
    Except String GateState :=
  if sender ≠ cfg.operator then .error "X402: caller is not operator"
  else if (s.sessions sessionId).payer = 0 then .error "X402: session not found"
  else if (s.sessions sessionId).settled then .error "X402: session already settled"
  else if ¬ (totalSpent ≤ (s.sessions sessionId).totalLocked) then
    .error "X402: spent exceeds locked"
  else
    match (if 0 < (s.sessions sessionId).totalLocked - totalSpent then
             s.token.transfer cfg.gateAddr (s.sessions sessionId).payer
               ((s.sessions sessionId).totalLocked - totalSpent)
           else .ok s.token) with
    | .error e => .error e
    | .ok t1 =>
      match (if 0 < totalSpent then t1.transfer cfg.gateAddr cfg.operator totalSpent
             else .ok t1) with
      | .error e => .error e
      | .ok t2 =>
        .ok { s with
          token := t2,
          sessions := fun sid =>
            if sid = sessionId then
              ⟨(s.sessions sid).payer, (s.sessions sid).totalLocked, totalSpent,
                (s.sessions sid).stepCount, true⟩
            else s.sessions sid }

/-- One external transaction against the gate or the token. -/
inductive Call where
  | lockBudget (sender sessionId totalAmount stepCount : Nat)
  | authorizePayment (sender sessionId stepId amount : Nat)
  | confirmExecution (sender sessionId stepId : Nat)
  | refund (sender sessionId stepId : Nat)
  | settleBudget (sender sessionId totalSpent : Nat)
  | mint (toAddr amount : Nat)
  | approve (sender spender amount : Nat)
  | transfer (sender toAddr amount : Nat)
  | transferFrom (sender fromAddr toAddr amount : Nat)

/-- Execute one transaction; `.error` is a revert. -/
def exec (cfg : Cfg) (s : GateState) : Call → Except String GateState
  | .lockBudget sender sid amt n => lockBudget cfg s sender sid amt n
  | .authorizePayment sender sid step amt => authorizePayment cfg s sender sid step amt
  | .confirmExecution sender sid step => confirmExecution cfg s sender sid step
  | .refund sender sid step => refund cfg s sender sid step
  | .settleBudget sender sid amt => settleBudget cfg s sender sid amt
  | .mint toAddr amt => .ok { s with token := s.token.mint toAddr amt }
  | .approve sender spender amt => .ok { s with token := s.token.approve sender spender amt }
  | .transfer sender toAddr amt =>
    match s.token.transfer sender toAddr amt with
    | .error e => .error e
    | .ok t => .ok { s with token := t }
  | .transferFrom sender fromAddr toAddr amt =>
    match s.token.transferFrom sender fromAddr toAddr amt with
    | .error e => .error e
    | .ok t => .ok { s with token := t }

/-- A reverted transaction leaves the state unchanged. -/
def stepCall (cfg : Cfg) (s : GateState) (c : Call) : GateState :=
  match exec cfg s c with
  | .ok s' => s'
  | .error _ => s

def run (cfg : Cfg) (s : GateState) (cs : List Call) : GateState :=
  cs.foldl (stepCall cfg) s

/-- Freshly deployed gate over an arbitrary initial token state. -/
def initState (t : TokenState) : GateState :=
  ⟨fun _ => emptySession, [], t⟩

/-- States reachable from deployment by any sequence of transactions. -/
def Reachable (cfg : Cfg) (t0 : TokenState) (s : GateState) : Prop :=
  ∃ cs, run cfg (initState t0) cs = s

/-- Sum of `amount` over `StepPayment`s in `Confirmed` state for a session. -/
def confirmedSum (l : List (SKey × StepPayment)) (sid : Nat) : Nat :=
  ((l.filter (fun e => decide (e.1.1 = sid ∧ e.2.confirmed = true))).map
    (fun e => e.2.amount)).sum

end X402

namespace X402

/-! ## Mapping lemmas -/

lemma spLookup_spSet_self (l : List (SKey × StepPayment)) (k : SKey) (v : StepPayment) :
    spLookup (spSet l k v) k = v := by
  simp [spLookup, spSet, List.find?_cons_of_pos]

lemma find?_filter_ne (l : List (SKey × StepPayment)) (k k' : SKey) (h : k' ≠ k) :
    (l.filter (fun e => decide (e.1 ≠ k))).find? (fun e => decide (e.1 = k'))
      = l.find? (fun e => decide (e.1 = k')) := by
  induction l with
  | nil => rfl
  | cons e l ih =>
    rw [List.filter_cons]
    by_cases he : e.1 = k
    · rw [if_neg (by simp [he]),
        List.find?_cons_of_neg _ (by simp [he]; exact fun hq => h hq.symm), ih]
    · rw [if_pos (by simp [he])]
      by_cases he' : e.1 = k'
      · rw [List.find?_cons_of_pos _ (by simp [he']), List.find?_cons_of_pos _ (by simp [he'])]
      · rw [List.find?_cons_of_neg _ (by simp [he']), List.find?_cons_of_neg _ (by simp [he']),
          ih]

lemma spLookup_spSet_ne (l : List (SKey × StepPayment)) (k k' : SKey) (v : StepPayment)
    (h : k' ≠ k) : spLookup (spSet l k v) k' = spLookup l k' := by
  unfold spLookup spSet
  rw [List.find?_cons_of_neg _ (by simpa using fun hq => h hq.symm), find?_filter_ne l k k' h]

lemma keys_spSet_nodup (l : List (SKey × StepPayment)) (k : SKey) (v : StepPayment)
    (h : (l.map Prod.fst).Nodup) : ((spSet l k v).map Prod.fst).Nodup := by
  unfold spSet
  refine List.nodup_cons.mpr ⟨?_, ?_⟩
  · intro hk
    obtain ⟨e, he, hek⟩ := List.mem_map.mp hk
    have := List.of_mem_filter he
    simp [hek] at this
  · exact ((List.filter_sublist l).map Prod.fst).nodup h

lemma mem_spSet {l : List (SKey × StepPayment)} {k : SKey} {v : StepPayment}
    {e : SKey × StepPayment} (h : e ∈ spSet l k v) : e = (k, v) ∨ (e ∈ l ∧ e.1 ≠ k) := by
  unfold spSet at h
  rcases List.mem_cons.mp h with h | h
  · exact Or.inl h
  · exact Or.inr ⟨List.mem_of_mem_filter h, by simpa using List.of_mem_filter h⟩

/-! ## `confirmedSum` bookkeeping -/

/-- Contribution of a single step payment to a session's confirmed sum. -/
def contrib (k : SKey) (p : StepPayment) (sid : Nat) : Nat :=
  if k.1 = sid ∧ p.confirmed = true then p.amount else 0

lemma confirmedSum_cons (e : SKey × StepPayment) (l : List (SKey × StepPayment)) (sid : Nat) :
    confirmedSum (e :: l) sid = contrib e.1 e.2 sid + confirmedSum l sid := by
  unfold confirmedSum contrib
  by_cases h : e.1.1 = sid ∧ e.2.confirmed = true <;> simp [List.filter_cons, h]

lemma confirmedSum_spSet (l : List (SKey × StepPayment)) (k : SKey) (v : StepPayment)
    (sid : Nat) :
    confirmedSum (spSet l k v) sid
      = contrib k v sid + confirmedSum (l.filter (fun e => decide (e.1 ≠ k))) sid := by
  unfold spSet
  exact confirmedSum_cons _ _ _

lemma filter_ne_of_no_key {l : List (SKey × StepPayment)} {k : SKey}
    (h : ∀ e ∈ l, e.1 ≠ k) : l.filter (fun e => decide (e.1 ≠ k)) = l :=
  List.filter_eq_self.mpr (fun e he => by simpa using h e he)

lemma confirmedSum_eq_zero_of_no_session {l : List (SKey × StepPayment)} {sid : Nat}
    (h : ∀ e ∈ l, e.1.1 ≠ sid) : confirmedSum l sid = 0 := by
  unfold confirmedSum
  rw [List.filter_eq_nil_iff.mpr (fun e he => by simp [h e he])]
  rfl

lemma confirmedSum_decomp (l : List (SKey × StepPayment)) (k : SKey) (sid : Nat)
    (hnd : (l.map Prod.fst).Nodup) :
    confirmedSum l sid
      = contrib k (spLookup l k) sid
        + confirmedSum (l.filter (fun e => decide (e.1 ≠ k))) sid := by
  induction l with
  | nil => simp [confirmedSum, spLookup, contrib, emptyStepPayment]
  | cons e l ih =>
    have hnd' : (l.map Prod.fst).Nodup := (List.nodup_cons.mp hnd).2
    have hhead : e.1 ∉ l.map Prod.fst := (List.nodup_cons.mp hnd).1
    by_cases he : e.1 = k
    · have hnok : ∀ x ∈ l, x.1 ≠ k := by
        intro x hx hxk
        have hx1 : x.1 ∈ l.map Prod.fst := List.mem_map_of_mem Prod.fst hx
        rw [hxk, ← he] at hx1
        exact hhead hx1
      have hfil : (e :: l).filter (fun e => decide (e.1 ≠ k)) = l := by
        rw [List.filter_cons, if_neg (by simp [he])]
        exact filter_ne_of_no_key hnok
      have hlook : spLookup (e :: l) k = e.2 := by
        unfold spLookup
        rw [List.find?_cons_of_pos _ (by simp [he])]
      rw [hfil, hlook, confirmedSum_cons, he]
    · have hlook : spLookup (e :: l) k = spLookup l k := by
        unfold spLookup
        rw [List.find?_cons_of_neg _ (by simp [he])]
      have hfil : (e :: l).filter (fun e => decide (e.1 ≠ k))
          = e :: l.filter (fun e => decide (e.1 ≠ k)) := by
        rw [List.filter_cons, if_pos (by simp [he])]
      rw [hfil, hlook, confirmedSum_cons, confirmedSum_cons, ih hnd']
      omega

end X402

namespace X402

/-! ## The inductive invariant of reachable gate states -/

/-- Inductive invariant: the step-payment store has unique keys; every stored
step payment is authorized, is not both confirmed and refunded, and belongs to
a session that exists (`payer ≠ address(0)`); for every *unsettled* session
`totalSpent` equals the sum of confirmed step amounts; and settled sessions
exist. -/
def Inv (s : GateState) : Prop :=
  (s.stepPayments.map Prod.fst).Nodup
  ∧ (∀ e ∈ s.stepPayments,
      e.2.authorized = true ∧ ¬ (e.2.confirmed = true ∧ e.2.refunded = true)
        ∧ (s.sessions e.1.1).payer ≠ 0)
  ∧ (∀ sid, (s.sessions sid).settled = false →
      (s.sessions sid).totalSpent = confirmedSum s.stepPayments sid)
  ∧ (∀ sid, (s.sessions sid).settled = true → (s.sessions sid).payer ≠ 0)

lemma inv_init (t : TokenState) : Inv (initState t) := by
  refine ⟨List.nodup_nil, ?_, ?_, ?_⟩ <;> simp [initState, emptySession, confirmedSum]

lemma inv_lockBudget {cfg : Cfg} {s s' : GateState} {sender sid amt n : Nat}
    (h : Inv s) (he : lockBudget cfg s sender sid amt n = .ok s') : Inv s' := by
  obtain ⟨h1, h2, h3, h4⟩ := h
  unfold lockBudget at he
  split at he
  · cases he
  next hp =>
  have hpayer0 : (s.sessions sid).payer = 0 := by
    by_contra hc
    exact hp hc
  split at he
  · cases he
  split at he
  · cases he
  split at he
  · cases he
  next t' hts =>
  injection he with he'
  subst he'
  have hnosid : ∀ e ∈ s.stepPayments, e.1.1 ≠ sid := by
    intro e he' hk
    have := (h2 e he').2.2
    rw [hk, hpayer0] at this
    exact this rfl
  refine ⟨h1, ?_, ?_, ?_⟩
  · intro e he'
    obtain ⟨ha, hcr, hpne⟩ := h2 e he'
    refine ⟨ha, hcr, ?_⟩
    simp only []
    by_cases hsid : e.1.1 = sid
    · exact absurd (hsid ▸ hpayer0) (hsid ▸ hpne)
    · simpa [hsid] using hpne
  · intro sid' hset
    by_cases hsid : sid' = sid
    · subst hsid
      simp only [if_pos rfl] at hset ⊢
      exact (confirmedSum_eq_zero_of_no_session hnosid).symm
    · simp only [if_neg hsid] at hset ⊢
      exact h3 sid' hset
  · intro sid' hset
    by_cases hsid : sid' = sid
    · subst hsid
      simp [if_pos rfl] at hset
    · simp only [if_neg hsid] at hset ⊢
      exact h4 sid' hset

end X402

namespace X402

lemma no_key_of_not_authorized {l : List (SKey × StepPayment)} {k : SKey}
    (hall : ∀ e ∈ l, e.2.authorized = true)
    (hna : ¬ (spLookup l k).authorized = true) : ∀ e ∈ l, e.1 ≠ k := by
  intro e he hek
  cases hf : l.find? (fun e => decide (e.1 = k)) with
  | none =>
    have := List.find?_eq_none.mp hf e he
    simp [hek] at this
  | some e' =>
    have he' : e' ∈ l := List.mem_of_find?_eq_some hf
    have hl : spLookup l k = e'.2 := by unfold spLookup; rw [hf]
    rw [hl] at hna
    exact hna (hall e' he')

lemma inv_authorizePayment {cfg : Cfg} {s s' : GateState} {sender sid stepId amt : Nat}
    (h : Inv s) (he : authorizePayment cfg s sender sid stepId amt = .ok s') : Inv s' := by
  obtain ⟨h1, h2, h3, h4⟩ := h
  unfold authorizePayment at he
  split at he
  · cases he
  split at he
  · cases he
  next hpz =>
  split at he
  · cases he
  split at he
  · cases he
  split at he
  · cases he
  next hna =>
  injection he with he'
  subst he'
  have hnok : ∀ e ∈ s.stepPayments, e.1 ≠ (sid, stepId) :=
    no_key_of_not_authorized (fun e hme => (h2 e hme).1) hna
  refine ⟨keys_spSet_nodup _ _ _ h1, ?_, ?_, h4⟩
  · intro e hme
    rcases mem_spSet hme with hen | ⟨hel, _⟩
    · subst hen
      exact ⟨rfl, by simp, hpz⟩
    · exact h2 e hel
  · intro sid' hset
    rw [confirmedSum_spSet]
    rw [filter_ne_of_no_key hnok]
    have : contrib (sid, stepId) ⟨amt, true, false, false⟩ sid' = 0 := by
      simp [contrib]
    rw [this]
    simpa using h3 sid' hset

lemma inv_confirmExecution {cfg : Cfg} {s s' : GateState} {sender sid stepId : Nat}
    (h : Inv s) (he : confirmExecution cfg s sender sid stepId = .ok s') : Inv s' := by
  obtain ⟨h1, h2, h3, h4⟩ := h
  unfold confirmExecution at he
  split at he
  · cases he
  split at he
  · cases he
  next hpz =>
  split at he
  · cases he
  split at he
  · cases he
  next hauth =>
  split at he
  · cases he
  next hconf =>
  split at he
  · cases he
  next href =>
  injection he with he'
  subst he'
  have hAuth : (spLookup s.stepPayments (sid, stepId)).authorized = true := by
    by_contra hc
    exact hauth hc
  have hConf : (spLookup s.stepPayments (sid, stepId)).confirmed = false := by
    by_contra hc
    exact hconf (by simpa using hc)
  have hRef : (spLookup s.stepPayments (sid, stepId)).refunded = false := by
    by_contra hc
    exact href (by simpa using hc)
  refine ⟨keys_spSet_nodup _ _ _ h1, ?_, ?_, ?_⟩
  · intro e hme
    rcases mem_spSet hme with hen | ⟨hel, _⟩
    · subst hen
      exact ⟨hAuth, by simp [hRef], by simpa using hpz⟩
    · obtain ⟨ha, hcr, hpne⟩ := h2 e hel
      refine ⟨ha, hcr, ?_⟩
      by_cases hsid : e.1.1 = sid
      · simpa [hsid] using hpz
      · simpa [hsid] using hpne
  · intro sid' hset
    have hdec := confirmedSum_decomp s.stepPayments (sid, stepId) sid' h1
    rw [confirmedSum_spSet]
    by_cases hsid : sid' = sid
    · subst hsid
      simp only [if_pos rfl] at hset
      have hold := h3 sid' hset
      rw [hdec] at hold
      have hc0 : contrib (sid', stepId) (spLookup s.stepPayments (sid', stepId)) sid' = 0 := by
        simp [contrib, hConf]
      have hcP : contrib (sid', stepId)
          ⟨(spLookup s.stepPayments (sid', stepId)).amount,
            (spLookup s.stepPayments (sid', stepId)).authorized, true,
            (spLookup s.stepPayments (sid', stepId)).refunded⟩ sid'
          = (spLookup s.stepPayments (sid', stepId)).amount := by
        simp [contrib]
      rw [hc0] at hold
      rw [hcP]
      simp only [eq_self_iff_true, if_true]
      omega
    · simp only [if_neg hsid] at hset ⊢
      have hold := h3 sid' hset
      rw [hdec] at hold
      have hne : sid ≠ sid' := fun hq => hsid hq.symm
      have hc0 : contrib (sid, stepId) (spLookup s.stepPayments (sid, stepId)) sid' = 0 := by
        simp [contrib, hne]
      have hcP : contrib (sid, stepId)
          ⟨(spLookup s.stepPayments (sid, stepId)).amount,
            (spLookup s.stepPayments (sid, stepId)).authorized, true,
            (spLookup s.stepPayments (sid, stepId)).refunded⟩ sid' = 0 := by
        simp [contrib, hne]
      rw [hc0] at hold
      rw [hcP]
      omega
  · intro sid' hset
    by_cases hsid : sid' = sid
    · subst hsid
      simp only [if_pos rfl] at hset ⊢
      exact h4 sid' hset
    · simp only [if_neg hsid] at hset ⊢
      exact h4 sid' hset

lemma inv_refund {cfg : Cfg} {s s' : GateState} {sender sid stepId : Nat}
    (h : Inv s) (he : refund cfg s sender sid stepId = .ok s') : Inv s' := by
  obtain ⟨h1, h2, h3, h4⟩ := h
  unfold refund at he
  split at he
  · cases he
  split at he
  · cases he
  next hpz =>
  split at he
  · cases he
  split at he
  · cases he
  next hauth =>
  split at he
  · cases he
  next hconf =>
  split at he
  · cases he
  injection he with he'
  subst he'
  have hAuth : (spLookup s.stepPayments (sid, stepId)).authorized = true := by
    by_contra hc
    exact hauth hc
  have hConf : (spLookup s.stepPayments (sid, stepId)).confirmed = false := by
    by_contra hc
    exact hconf (by simpa using hc)
  refine ⟨keys_spSet_nodup _ _ _ h1, ?_, ?_, h4⟩
  · intro e hme
    rcases mem_spSet hme with hen | ⟨hel, _⟩
    · subst hen
      exact ⟨hAuth, by simp [hConf], hpz⟩
    · exact h2 e hel
  · intro sid' hset
    have hdec := confirmedSum_decomp s.stepPayments (sid, stepId) sid' h1
    rw [confirmedSum_spSet]
    have hold := h3 sid' hset
    rw [hdec] at hold
    have hc0 : contrib (sid, stepId) (spLookup s.stepPayments (sid, stepId)) sid' = 0 := by
      simp [contrib, hConf]
    have hcP : contrib (sid, stepId)
        ⟨(spLookup s.stepPayments (sid, stepId)).amount,
          (spLookup s.stepPayments (sid, stepId)).authorized,
          (spLookup s.stepPayments (sid, stepId)).confirmed, true⟩ sid' = 0 := by
      simp [contrib, hConf]
    rw [hc0] at hold
    rw [hcP]
    exact hold

lemma inv_settle_core {s : GateState} {sid ts : Nat}
    (h1 : (s.stepPayments.map Prod.fst).Nodup)
    (h2 : ∀ e ∈ s.stepPayments,
      e.2.authorized = true ∧ ¬ (e.2.confirmed = true ∧ e.2.refunded = true)
        ∧ (s.sessions e.1.1).payer ≠ 0)
    (h3 : ∀ sid', (s.sessions sid').settled = false →
      (s.sessions sid').totalSpent = confirmedSum s.stepPayments sid')
    (h4 : ∀ sid', (s.sessions sid').settled = true → (s.sessions sid').payer ≠ 0)
    (hpz : ¬ (s.sessions sid).payer = 0) (t2 : TokenState) :
    Inv { sessions := fun sid' =>
            if sid' = sid then
              ⟨(s.sessions sid').payer, (s.sessions sid').totalLocked, ts,
                (s.sessions sid').stepCount, true⟩
            else s.sessions sid',
          stepPayments := s.stepPayments, token := t2 } := by
  refine ⟨h1, ?_, ?_, ?_⟩
  · intro e hme
    obtain ⟨ha, hcr, hpne⟩ := h2 e hme
    refine ⟨ha, hcr, ?_⟩
    by_cases hsid : e.1.1 = sid
    · simpa [hsid] using hpz
    · simpa [hsid] using hpne
  · intro sid' hset
    by_cases hsid : sid' = sid
    · subst hsid
      simp [if_pos rfl] at hset
    · simp only [if_neg hsid] at hset ⊢
      exact h3 sid' hset
  · intro sid' hset
    by_cases hsid : sid' = sid
    · subst hsid
      simpa using hpz
    · simp only [if_neg hsid] at hset ⊢
      exact h4 sid' hset

lemma inv_settleBudget {cfg : Cfg} {s s' : GateState} {sender sid ts : Nat}
    (h : Inv s) (he : settleBudget cfg s sender sid ts = .ok s') : Inv s' := by
  obtain ⟨h1, h2, h3, h4⟩ := h
  unfold settleBudget at he
  split at he
  · cases he
  split at he
  · cases he
  next hpz =>
  split at he
  · cases he
  split at he
  · cases he
  repeat' split at he
  all_goals cases he
  all_goals exact inv_settle_core h1 h2 h3 h4 hpz _

lemma inv_exec {cfg : Cfg} {s s' : GateState} {c : Call}
    (h : Inv s) (he : exec cfg s c = .ok s') : Inv s' := by
  cases c with
  | lockBudget sender sid amt n => exact inv_lockBudget h he
  | authorizePayment sender sid step amt => exact inv_authorizePayment h he
  | confirmExecution sender sid step => exact inv_confirmExecution h he
  | refund sender sid step => exact inv_refund h he
  | settleBudget sender sid ts => exact inv_settleBudget h he
  | mint toAddr amt =>
    obtain ⟨h1, h2, h3, h4⟩ := h
    simp only [exec] at he
    injection he with he'
    subst he'
    exact ⟨h1, h2, h3, h4⟩
  | approve sender spender amt =>
    obtain ⟨h1, h2, h3, h4⟩ := h
    simp only [exec] at he
    injection he with he'
    subst he'
    exact ⟨h1, h2, h3, h4⟩
  | transfer sender toAddr amt =>
    obtain ⟨h1, h2, h3, h4⟩ := h
    simp only [exec] at he
    split at he
    · cases he
    injection he with he'
    subst he'
    exact ⟨h1, h2, h3, h4⟩
  | transferFrom sender fromAddr toAddr amt =>
    obtain ⟨h1, h2, h3, h4⟩ := h
    simp only [exec] at he
    split at he
    · cases he
    injection he with he'
    subst he'
    exact ⟨h1, h2, h3, h4⟩

lemma inv_stepCall (cfg : Cfg) (s : GateState) (c : Call) (h : Inv s) :
    Inv (stepCall cfg s c) := by
  unfold stepCall
  cases he : exec cfg s c with
  | ok s' => exact inv_exec h he
  | error e => exact h

lemma inv_run (cfg : Cfg) (cs : List Call) :
    ∀ s : GateState, Inv s → Inv (run cfg s cs) := by
  induction cs with
  | nil => exact fun s h => h
  | cons c cs ih =>
    intro s h
    exact ih (stepCall cfg s c) (inv_stepCall cfg s c h)

lemma inv_reachable {cfg : Cfg} {t0 : TokenState} {s : GateState}
    (h : Reachable cfg t0 s) : Inv s := by
  obtain ⟨cs, hcs⟩ := h
  rw [← hcs]
  exact inv_run cfg cs _ (inv_init t0)

end X402

namespace X402

/-! ## The per-(session, step) authorization state machine -/

/-- Abstract state of one `StepPayment`. -/
inductive PState where
  | unauthorized
  | authorized
  | confirmed
  | refunded
deriving DecidableEq

/-- Abstract state of the (session, step) pair read off the flags. -/
def pairState (s : GateState) (k : SKey) : PState :=
  if (spLookup s.stepPayments k).refunded then .refunded
  else if (spLookup s.stepPayments k).confirmed then .confirmed
  else if (spLookup s.stepPayments k).authorized then .authorized
  else .unauthorized

/-- The transitions the specification permits:
`Unauthorized→Authorized→{Confirmed | Refunded}`, or no movement. -/
def stEdge (a b : PState) : Prop :=
  a = b ∨ (a = .unauthorized ∧ b = .authorized)
    ∨ (a = .authorized ∧ b = .confirmed) ∨ (a = .authorized ∧ b = .refunded)

instance (a b : PState) : Decidable (stEdge a b) := by
  unfold stEdge
  infer_instance

lemma spLookup_cases (l : List (SKey × StepPayment)) (k : SKey) :
    spLookup l k = emptyStepPayment ∨ ∃ e ∈ l, e.1 = k ∧ spLookup l k = e.2 := by
  unfold spLookup
  cases hf : l.find? (fun e => decide (e.1 = k)) with
  | none => exact Or.inl rfl
  | some e =>
    refine Or.inr ⟨e, List.mem_of_find?_eq_some hf, ?_, rfl⟩
    simpa using List.find?_some hf

lemma pairState_authorized {s : GateState} (hInv : Inv s) (k : SKey)
    (h : pairState s k ≠ .unauthorized) :
    (spLookup s.stepPayments k).authorized = true := by
  rcases spLookup_cases s.stepPayments k with hd | ⟨e, he, _, hl⟩
  · exfalso
    apply h
    unfold pairState
    rw [hd]
    rfl
  · rw [hl]
    exact (hInv.2.1 e he).1

lemma pairState_confirmed_flag {s : GateState} {k : SKey}
    (h : pairState s k = .confirmed) : (spLookup s.stepPayments k).confirmed = true := by
  unfold pairState at h
  split at h
  · cases h
  split at h
  next hc => exact hc
  split at h
  · cases h
  · cases h

lemma pairState_refunded_flag {s : GateState} {k : SKey}
    (h : pairState s k = .refunded) : (spLookup s.stepPayments k).refunded = true := by
  unfold pairState at h
  split at h
  next hr => exact hr
  split at h
  · cases h
  split at h
  · cases h
  · cases h

/-- A second `authorizePayment` on an already-authorized step always reverts. -/
lemma exec_auth_fails {cfg : Cfg} {s : GateState} {sender sid stepId amt : Nat}
    (hA : (spLookup s.stepPayments (sid, stepId)).authorized = true) :
    (exec cfg s (.authorizePayment sender sid stepId amt)).isOk = false := by
  simp only [exec]
  unfold authorizePayment
  repeat' split
  all_goals try rfl

/-- `confirmExecution` on a confirmed or refunded step always reverts. -/
lemma exec_confirm_fails {cfg : Cfg} {s : GateState} {sender sid stepId : Nat}
    (h : (spLookup s.stepPayments (sid, stepId)).confirmed = true
      ∨ (spLookup s.stepPayments (sid, stepId)).refunded = true) :
    (exec cfg s (.confirmExecution sender sid stepId)).isOk = false := by
  simp only [exec]
  unfold confirmExecution
  repeat' split
  all_goals try rfl
  all_goals exact h.elim (fun h1 => absurd h1 (by assumption)) (fun h2 => absurd h2 (by assumption))

/-- `refund` on a confirmed or refunded step always reverts. -/
lemma exec_refund_fails {cfg : Cfg} {s : GateState} {sender sid stepId : Nat}
    (h : (spLookup s.stepPayments (sid, stepId)).confirmed = true
      ∨ (spLookup s.stepPayments (sid, stepId)).refunded = true) :
    (exec cfg s (.refund sender sid stepId)).isOk = false := by
  simp only [exec]
  unfold refund
  repeat' split
  all_goals try rfl
  all_goals exact h.elim (fun h1 => absurd h1 (by assumption)) (fun h2 => absurd h2 (by assumption))

lemma stepCall_eq_of_not_ok {cfg : Cfg} {s : GateState} {c : Call}
    (h : (exec cfg s c).isOk = false) : stepCall cfg s c = s := by
  unfold stepCall
  cases he : exec cfg s c with
  | ok s' =>
    rw [he] at h
    simp [Except.isOk, Except.toBool] at h
  | error e => rfl

lemma auth_ok_pairState {cfg : Cfg} {s s' : GateState} {sender sid stepId amt : Nat}
    (hInv : Inv s) (he : authorizePayment cfg s sender sid stepId amt = .ok s') (k : SKey) :
    stEdge (pairState s k) (pairState s' k) := by
  unfold authorizePayment at he
  split at he
  · cases he
  split at he
  · cases he
  split at he
  · cases he
  split at he
  · cases he
  split at he
  · cases he
  next hna =>
  cases he
  by_cases hk : k = (sid, stepId)
  · subst hk
    have hnok := no_key_of_not_authorized (fun e hme => (hInv.2.1 e hme).1) hna
    have hdef : spLookup s.stepPayments (sid, stepId) = emptyStepPayment := by
      rcases spLookup_cases s.stepPayments (sid, stepId) with hd | ⟨e, hel, hek, _⟩
      · exact hd
      · exact absurd hek (hnok e hel)
    refine Or.inr (Or.inl ⟨?_, ?_⟩)
    · unfold pairState
      rw [hdef]
      rfl
    · simp only [pairState]
      rw [spLookup_spSet_self]
      rfl
  · refine Or.inl ?_
    simp only [pairState]
    rw [spLookup_spSet_ne _ _ _ _ hk]

lemma confirm_ok_pairState {cfg : Cfg} {s s' : GateState} {sender sid stepId : Nat}
    (he : confirmExecution cfg s sender sid stepId = .ok s') (k : SKey) :
    stEdge (pairState s k) (pairState s' k) := by
  unfold confirmExecution at he
  split at he
  · cases he
  split at he
  · cases he
  split at he
  · cases he
  split at he
  · cases he
  next hauth =>
  split at he
  · cases he
  next hconf =>
  split at he
  · cases he
  next href =>
  cases he
  have hA : (spLookup s.stepPayments (sid, stepId)).authorized = true := by
    by_contra hc
    exact hauth hc
  have hC : (spLookup s.stepPayments (sid, stepId)).confirmed = false := by
    by_contra hc
    exact hconf (by simpa using hc)
  have hR : (spLookup s.stepPayments (sid, stepId)).refunded = false := by
    by_contra hc
    exact href (by simpa using hc)
  by_cases hk : k = (sid, stepId)
  · subst hk
    refine Or.inr (Or.inr (Or.inl ⟨?_, ?_⟩))
    · unfold pairState
      rw [hA, hC, hR]
      rfl
    · simp only [pairState]
      rw [spLookup_spSet_self]
      simp [hR]
  · refine Or.inl ?_
    simp only [pairState]
    rw [spLookup_spSet_ne _ _ _ _ hk]

lemma refund_ok_pairState {cfg : Cfg} {s s' : GateState} {sender sid stepId : Nat}
    (he : refund cfg s sender sid stepId = .ok s') (k : SKey) :
    stEdge (pairState s k) (pairState s' k) := by
  unfold refund at he
  split at he
  · cases he
  split at he
  · cases he
  split at he
  · cases he
  split at he
  · cases he
  next hauth =>
  split at he
  · cases he
  next hconf =>
  split at he
  · cases he
  next href =>
  cases he
  have hA : (spLookup s.stepPayments (sid, stepId)).authorized = true := by
    by_contra hc
    exact hauth hc
  have hC : (spLookup s.stepPayments (sid, stepId)).confirmed = false := by
    by_contra hc
    exact hconf (by simpa using hc)
  have hR : (spLookup s.stepPayments (sid, stepId)).refunded = false := by
    by_contra hc
    exact href (by simpa using hc)
  by_cases hk : k = (sid, stepId)
  · subst hk
    refine Or.inr (Or.inr (Or.inr ⟨?_, ?_⟩))
    · unfold pairState
      rw [hA, hC, hR]
      rfl
    · simp only [pairState]
      rw [spLookup_spSet_self]
      rfl
  · refine Or.inl ?_
    simp only [pairState]
    rw [spLookup_spSet_ne _ _ _ _ hk]

lemma pairState_stepCall_edge {cfg : Cfg} {s : GateState} (hInv : Inv s) (k : SKey)
    (c : Call) : stEdge (pairState s k) (pairState (stepCall cfg s c) k) := by
  unfold stepCall
  cases he : exec cfg s c with
  | error e => exact Or.inl rfl
  | ok s' =>
    cases c with
    | lockBudget sender sid amt n =>
      simp only [exec] at he
      unfold lockBudget at he
      repeat' split at he
      all_goals cases he
      all_goals exact Or.inl rfl
    | authorizePayment sender sid step amt =>
      exact auth_ok_pairState hInv (by simpa [exec] using he) k
    | confirmExecution sender sid step =>
      exact confirm_ok_pairState (by simpa [exec] using he) k
    | refund sender sid step =>
      exact refund_ok_pairState (by simpa [exec] using he) k
    | settleBudget sender sid ts =>
      simp only [exec] at he
      unfold settleBudget at he
      repeat' split at he
      all_goals cases he
      all_goals exact Or.inl rfl
    | mint toAddr amt =>
      simp only [exec] at he
      cases he
      exact Or.inl rfl
    | approve sender spender amt =>
      simp only [exec] at he
      cases he
      exact Or.inl rfl
    | transfer sender toAddr amt =>
      simp only [exec] at he
      split at he
      · cases he
      cases he
      exact Or.inl rfl
    | transferFrom sender fromAddr toAddr amt =>
      simp only [exec] at he
      split at he
      · cases he
      cases he
      exact Or.inl rfl

end X402

namespace X402

/-! ## Concrete deployment used by the closed theorems and witnesses -/

/-- An initial token state with no balances or allowances. -/
def tok0 : TokenState := ⟨fun _ => 0, fun _ _ => 0⟩

/-- Operator address `1`, gate contract address `2` (payer is `3` below). -/
def cfg0 : Cfg := ⟨1, 2⟩

/-- Lock 10, authorize two steps of 10 each (both pass the budget check,
which only counts *confirmed* spend), then confirm both. -/
def overspendTrace : List Call :=
  [.mint 3 10, .approve 3 2 10, .lockBudget 3 100 10 2,
   .authorizePayment 1 100 7 10, .authorizePayment 1 100 8 10,
   .confirmExecution 1 100 7, .confirmExecution 1 100 8]

/-- A normal partial lifecycle: lock 10, authorize step 7 for 4, confirm it. -/
def lifecycleTrace : List Call :=
  [.mint 3 10, .approve 3 2 10, .lockBudget 3 100 10 2,
   .authorizePayment 1 100 7 4, .confirmExecution 1 100 7]

def sLifecycle : GateState := run cfg0 (initState tok0) lifecycleTrace

/-- Lock 10, then settle with a caller-supplied `totalSpent = 5` although no
step was ever confirmed. -/
def settleDivergeTrace : List Call :=
  [.mint 3 10, .approve 3 2 10, .lockBudget 3 100 10 1, .settleBudget 1 100 5]

/-- C1 (code bug evaluated on the code): `authorizePayment` checks
`totalSpent + amount ≤ totalLocked` against *confirmed* spend only, so with
budget 10 both authorizations of 10 succeed, and the two subsequent
`confirmExecution` calls drive `totalSpent` to 20 > `totalLocked` = 10,
violating the claimed invariant `totalSpent ≤ totalLocked`. -/
theorem confirm_can_exceed_locked_budget :
    ((run cfg0 (initState tok0) overspendTrace).sessions 100).totalLocked = 10
    ∧ ((run cfg0 (initState tok0) overspendTrace).sessions 100).totalSpent = 20
    ∧ (spLookup (run cfg0 (initState tok0) overspendTrace).stepPayments (100, 7)).confirmed = true
    ∧ (spLookup (run cfg0 (initState tok0) overspendTrace).stepPayments (100, 8)).confirmed = true
    ∧ ((run cfg0 (initState tok0) overspendTrace).sessions 100).totalLocked
        < ((run cfg0 (initState tok0) overspendTrace).sessions 100).totalSpent :=
  ⟨by decide, by decide, by decide, by decide, by decide⟩

/-- C2 (amended): in every reachable state and for every session that is not
yet settled, `totalSpent` equals the sum of the amounts of its confirmed step
payments.  (`settleBudget` overwrites `totalSpent` with the caller-supplied
value, so the equality can fail for settled sessions — see the
counterexample.) -/
theorem unsettled_totalSpent_eq_confirmedSum (cfg : Cfg) (t0 : TokenState) (s : GateState)
    (h : Reachable cfg t0 s) (sid : Nat) (hset : (s.sessions sid).settled = false) :
    (s.sessions sid).totalSpent = confirmedSum s.stepPayments sid :=
  (inv_reachable h).2.2.1 sid hset

theorem unsettled_totalSpent_eq_confirmedSum_witness :
    (sLifecycle.sessions 100).settled = false
    ∧ (sLifecycle.sessions 100).totalSpent = confirmedSum sLifecycle.stepPayments 100 :=
  ⟨by decide,
    unsettled_totalSpent_eq_confirmedSum cfg0 tok0 sLifecycle ⟨lifecycleTrace, rfl⟩ 100
      (by decide)⟩

/-- C2 counterexample: a successful `settleBudget` with caller-supplied
`totalSpent = 5` on a session with no confirmed step leaves
`totalSpent = 5 ≠ 0 = Σ` confirmed amounts, so the claimed invariant does not
hold after `settleBudget`. -/
theorem settle_breaks_confirmedSum_invariant :
    ((run cfg0 (initState tok0) settleDivergeTrace).sessions 100).settled = true
    ∧ ((run cfg0 (initState tok0) settleDivergeTrace).sessions 100).totalSpent = 5
    ∧ confirmedSum (run cfg0 (initState tok0) settleDivergeTrace).stepPayments 100 = 0
    ∧ ((run cfg0 (initState tok0) settleDivergeTrace).sessions 100).totalSpent
        ≠ confirmedSum (run cfg0 (initState tok0) settleDivergeTrace).stepPayments 100 :=
  ⟨by decide, by decide, by decide, by decide⟩

/-- C3: in every reachable state, every transaction moves every
(session, step) pair only along
`Unauthorized→Authorized→{Confirmed | Refunded}` (or not at all); a second
`authorizePayment` for a pair that is not `Unauthorized` (including a
`Refunded` one) reverts; `confirmExecution` and `refund` revert on a
`Confirmed` or `Refunded` pair; and every reverted transaction leaves the
whole state (step and session alike) unchanged. -/
theorem step_authorization_state_machine (cfg : Cfg) (t0 : TokenState) (s : GateState)
    (h : Reachable cfg t0 s) (k : SKey) (c : Call) (sender amount : Nat) :
    stEdge (pairState s k) (pairState (stepCall cfg s c) k)
    ∧ (pairState s k ≠ .unauthorized →
        (exec cfg s (.authorizePayment sender k.1 k.2 amount)).isOk = false)
    ∧ ((pairState s k = .confirmed ∨ pairState s k = .refunded) →
        (exec cfg s (.confirmExecution sender k.1 k.2)).isOk = false
          ∧ (exec cfg s (.refund sender k.1 k.2)).isOk = false)
    ∧ ((exec cfg s c).isOk = false → stepCall cfg s c = s) := by
  have hInv := inv_reachable h
  refine ⟨pairState_stepCall_edge hInv k c, ?_, ?_, stepCall_eq_of_not_ok⟩
  · intro hne
    exact exec_auth_fails (pairState_authorized hInv k hne)
  · intro hcr
    have hflag : (spLookup s.stepPayments k).confirmed = true
        ∨ (spLookup s.stepPayments k).refunded = true := by
      rcases hcr with hc | hr
      · exact Or.inl (pairState_confirmed_flag hc)
      · exact Or.inr (pairState_refunded_flag hr)
    exact ⟨exec_confirm_fails hflag, exec_refund_fails hflag⟩

theorem step_authorization_state_machine_witness :
    stEdge (pairState sLifecycle (100, 7))
        (pairState (stepCall cfg0 sLifecycle (.confirmExecution 1 100 7)) (100, 7))
    ∧ (exec cfg0 sLifecycle (.authorizePayment 1 100 7 5)).isOk = false
    ∧ ((exec cfg0 sLifecycle (.confirmExecution 1 100 7)).isOk = false
        ∧ (exec cfg0 sLifecycle (.refund 1 100 7)).isOk = false)
    ∧ stepCall cfg0 sLifecycle (.confirmExecution 1 100 7) = sLifecycle := by
  obtain ⟨e1, e2, e3, e4⟩ :=
    step_authorization_state_machine cfg0 tok0 sLifecycle ⟨lifecycleTrace, rfl⟩
      (100, 7) (.confirmExecution 1 100 7) 1 5
  exact ⟨e1, e2 (by decide), e3 (by decide), e4 (by decide)⟩

end X402

namespace X402

lemma transfer_ok {t : TokenState} {caller toAddr amt : Nat}
    (h : amt ≤ t.balances caller) :
    t.transfer caller toAddr amt = .ok
      { t with balances := fun a =>
          if a = toAddr then (if a = caller then t.balances a - amt else t.balances a) + amt
          else (if a = caller then t.balances a - amt else t.balances a) } := by
  unfold TokenState.transfer
  rw [if_neg (by omega)]

lemma settle_success_core (cfg : Cfg) (s : GateState) (sender sid ts : Nat)
    (hop : sender = cfg.operator) (hp : (s.sessions sid).payer ≠ 0)
    (hset : (s.sessions sid).settled = false) (hts : ts ≤ (s.sessions sid).totalLocked)
    (hbal : (s.sessions sid).totalLocked ≤ s.token.balances cfg.gateAddr)
    (hpg : (s.sessions sid).payer ≠ cfg.gateAddr) (hog : cfg.operator ≠ cfg.gateAddr)
    (hpo : (s.sessions sid).payer ≠ cfg.operator) :
    (exec cfg s (.settleBudget sender sid ts)).isOk = true
    ∧ ((stepCall cfg s (.settleBudget sender sid ts)).sessions sid).settled = true
    ∧ ((stepCall cfg s (.settleBudget sender sid ts)).sessions sid).totalSpent = ts
    ∧ (stepCall cfg s (.settleBudget sender sid ts)).token.balances (s.sessions sid).payer
        = s.token.balances (s.sessions sid).payer + ((s.sessions sid).totalLocked - ts)
    ∧ (stepCall cfg s (.settleBudget sender sid ts)).token.balances cfg.operator
        = s.token.balances cfg.operator + ts
    ∧ (stepCall cfg s (.settleBudget sender sid ts)).token.balances cfg.gateAddr
        = s.token.balances cfg.gateAddr - (s.sessions sid).totalLocked := by
  have hgp : cfg.gateAddr ≠ (s.sessions sid).payer := fun hq => hpg hq.symm
  have hgo : cfg.gateAddr ≠ cfg.operator := fun hq => hog hq.symm
  have hopr : cfg.operator ≠ (s.sessions sid).payer := fun hq => hpo hq.symm
  have hb1 : ¬ (s.token.balances cfg.gateAddr < (s.sessions sid).totalLocked - ts) := by omega
  have hb2 : ¬ (s.token.balances cfg.gateAddr - ((s.sessions sid).totalLocked - ts) < ts) := by
    omega
  have hb3 : ¬ (s.token.balances cfg.gateAddr < ts) := by omega
  by_cases hr : 0 < (s.sessions sid).totalLocked - ts <;>
    by_cases h5 : 0 < ts <;>
      (refine ⟨?_, ?_, ?_, ?_, ?_, ?_⟩ <;>
        (simp [exec, stepCall, settleBudget, TokenState.transfer, hop, hp, hset, hts,
          hr, h5, hb1, hb2, hb3, hpg, hog, hpo, hgp, hgo, hopr, Except.isOk, Except.toBool]
         <;> omega))

/-- C7: `settleBudget` reverts (with the whole state, funds included,
unchanged) when the session is already settled, when the session does not
exist, or when the supplied `totalSpent` exceeds `totalLocked`; on a
successful settle, `settled` flips to `true`, `totalSpent` is recorded, and
the token moves `totalLocked − totalSpent` to the payer and `totalSpent` to
the operator, both leaving the gate's escrow. -/
theorem settleBudget_contract (cfg : Cfg) (s : GateState) (sender sid ts : Nat) :
    ((s.sessions sid).settled = true →
      (exec cfg s (.settleBudget sender sid ts)).isOk = false)
    ∧ ((s.sessions sid).payer = 0 →
      (exec cfg s (.settleBudget sender sid ts)).isOk = false)
    ∧ ((s.sessions sid).totalLocked < ts →
      (exec cfg s (.settleBudget sender sid ts)).isOk = false)
    ∧ ((exec cfg s (.settleBudget sender sid ts)).isOk = false →
      stepCall cfg s (.settleBudget sender sid ts) = s)
    ∧ (sender = cfg.operator → (s.sessions sid).payer ≠ 0 →
       (s.sessions sid).settled = false → ts ≤ (s.sessions sid).totalLocked →
       (s.sessions sid).totalLocked ≤ s.token.balances cfg.gateAddr →
       (s.sessions sid).payer ≠ cfg.gateAddr → cfg.operator ≠ cfg.gateAddr →
       (s.sessions sid).payer ≠ cfg.operator →
      (exec cfg s (.settleBudget sender sid ts)).isOk = true
      ∧ ((stepCall cfg s (.settleBudget sender sid ts)).sessions sid).settled = true
      ∧ ((stepCall cfg s (.settleBudget sender sid ts)).sessions sid).totalSpent = ts
      ∧ (stepCall cfg s (.settleBudget sender sid ts)).token.balances (s.sessions sid).payer
          = s.token.balances (s.sessions sid).payer + ((s.sessions sid).totalLocked - ts)
      ∧ (stepCall cfg s (.settleBudget sender sid ts)).token.balances cfg.operator
          = s.token.balances cfg.operator + ts
      ∧ (stepCall cfg s (.settleBudget sender sid ts)).token.balances cfg.gateAddr
          = s.token.balances cfg.gateAddr - (s.sessions sid).totalLocked) := by
  refine ⟨?_, ?_, ?_, stepCall_eq_of_not_ok, ?_⟩
  · intro hs
    simp only [exec]
    unfold settleBudget
    by_cases h1 : sender ≠ cfg.operator
    · rw [if_pos h1]
      rfl
    rw [if_neg h1]
    by_cases h2 : (s.sessions sid).payer = 0
    · rw [if_pos h2]
      rfl
    rw [if_neg h2, if_pos hs]
    rfl
  · intro hp
    simp only [exec]
    unfold settleBudget
    by_cases h1 : sender ≠ cfg.operator
    · rw [if_pos h1]
      rfl
    rw [if_neg h1, if_pos hp]
    rfl
  · intro hlt
    simp only [exec]
    unfold settleBudget
    by_cases h1 : sender ≠ cfg.operator
    · rw [if_pos h1]
      rfl
    rw [if_neg h1]
    by_cases h2 : (s.sessions sid).payer = 0
    · rw [if_pos h2]
      rfl
    rw [if_neg h2]
    by_cases h3 : (s.sessions sid).settled = true
    · rw [if_pos h3]
      rfl
    rw [if_neg h3, if_pos (show ¬ ts ≤ (s.sessions sid).totalLocked by omega)]
    rfl
  · intro hop hp hset hts hbal hpg hog hpo
    exact settle_success_core cfg s sender sid ts hop hp hset hts hbal hpg hog hpo

end X402

namespace X402

def sSettled : GateState := run cfg0 (initState tok0) settleDivergeTrace

theorem settleBudget_contract_witness :
    (exec cfg0 sSettled (.settleBudget 1 100 0)).isOk = false
    ∧ (exec cfg0 sLifecycle (.settleBudget 1 999 0)).isOk = false
    ∧ (exec cfg0 sLifecycle (.settleBudget 1 100 11)).isOk = false
    ∧ stepCall cfg0 sSettled (.settleBudget 1 100 0) = sSettled
    ∧ ((exec cfg0 sLifecycle (.settleBudget 1 100 4)).isOk = true
       ∧ ((stepCall cfg0 sLifecycle (.settleBudget 1 100 4)).sessions 100).settled = true
       ∧ ((stepCall cfg0 sLifecycle (.settleBudget 1 100 4)).sessions 100).totalSpent = 4
       ∧ (stepCall cfg0 sLifecycle (.settleBudget 1 100 4)).token.balances
            (sLifecycle.sessions 100).payer
          = sLifecycle.token.balances (sLifecycle.sessions 100).payer
              + ((sLifecycle.sessions 100).totalLocked - 4)
       ∧ (stepCall cfg0 sLifecycle (.settleBudget 1 100 4)).token.balances cfg0.operator
          = sLifecycle.token.balances cfg0.operator + 4
       ∧ (stepCall cfg0 sLifecycle (.settleBudget 1 100 4)).token.balances cfg0.gateAddr
          = sLifecycle.token.balances cfg0.gateAddr - (sLifecycle.sessions 100).totalLocked) :=
  ⟨(settleBudget_contract cfg0 sSettled 1 100 0).1 (by decide),
   (settleBudget_contract cfg0 sLifecycle 1 999 0).2.1 (by decide),
   (settleBudget_contract cfg0 sLifecycle 1 100 11).2.2.1 (by decide),
   (settleBudget_contract cfg0 sSettled 1 100 0).2.2.2.1 (by decide),
   (settleBudget_contract cfg0 sLifecycle 1 100 4).2.2.2.2 (by decide) (by decide)
     (by decide) (by decide) (by decide) (by decide) (by decide) (by decide)⟩

end X402

namespace Agent

/-!
## The Step Scheduler — `agent/executor.ts`

Money amounts (`number` in TypeScript, only ever added here) are modelled as
`Rat`.  The wall-clock fields `duration_ms` and `timestamp` and the opaque
`output` payload carry no logic and are modelled as `Option String` / dropped.
External I/O is passed in as an environment: one `EnvStep` per loop
iteration, giving the tool invocation's outcome and the contract-call
transport's behaviour.
-/

/-- `Step` of `agent/types.ts` (the fields the executor reads). -/
structure StepT where
  id : String
  index : Nat
  description : String
  tool : String
  estimated_cost_usd : Rat
deriving DecidableEq

/-- `ExecutionPlan` of `agent/types.ts` (the fields the executor reads). -/
structure PlanT where
  session_id : String
  query : String
  steps : List StepT
  step_count : Nat
  total_estimated_cost : Rat
  max_budget : Rat

/-- `StepResult.status`. -/
inductive Status where
  | completed
  | failed
  | skipped
  | payment_denied
deriving DecidableEq

/-- `StepResult` of `agent/types.ts` (without the wall-clock fields). -/
structure StepResultT where
  step_id : String
  index : Nat
  status : Status
  tool : String
  output : Option String
  actual_cost_usd : Rat
  payment_tx_hash : Option String
  error : Option String
  sources : List String
deriving DecidableEq

/-- `PaymentAuthorization` of `agent/types.ts`. -/
structure PaymentAuthT where
  step_id : String
  amount_usd : Rat
  authorized : Bool
  tx_hash : Option String
  error : Option String

/-- One loop iteration's external world: whether the on-chain contract call
of `authorizePayment` throws (`Modelled from the spec:` the production
transport — "ethers.js or viem" per the source comment — is stubbed in the
repository by a `callContract` that never throws; §4.2 of the spec makes a
transport-level failure of the authorization call an explicit denial, so the
transport is modelled as fallible), the transaction hash it returns
otherwise, and the outcome of the step's tool invocation (network responses
of the Anthropic / Tavily / RPC clients). -/
structure EnvStep where
  contractCallThrows : Option String
  txHash : String
  toolOutcome : Except String (String × List String)

/-- `COST_PER_TOOL` of `agent/types.ts`.  The catch-all `0` is unreachable:
`executeTool` throws on an unknown tool before the lookup happens. -/
def costPerTool (t : String) : Rat :=
  if t = "anthropic" then 8/100
  else if t = "tavily" then 1/100
  else if t = "blockchain_rpc" then 1/1000
  else if t = "reasoning" then 5/100
  else 0

/-- `Executor.authorizePayment`.  `hasContract` is whether
`config.x402ContractAddress` is set and non-zero.  In simulated mode the
function only logs and always authorizes (the `remaining` local of the
source is dead code and the comment's "budget check" is absent); in on-chain
mode the `catch` turns a transport failure into `authorized: false`. -/
def authorizePayment (hasContract : Bool) (e : EnvStep) (step : StepT) : PaymentAuthT :=
  if hasContract then
    match e.contractCallThrows with
    | some msg => ⟨step.id, step.estimated_cost_usd, false, none, some msg⟩
    | none => ⟨step.id, step.estimated_cost_usd, true, some e.txHash, none⟩
  else
    ⟨step.id, step.estimated_cost_usd, true, some ("sim_" ++ step.id), none⟩

/-- `Executor.executeTool`: known tools run their (environment-supplied)
client call; an unknown tool throws `Unknown tool: ...`. -/
def executeToolOutcome (e : EnvStep) (step : StepT) :
    Except String (String × List String) :=
  if step.tool = "anthropic" ∨ step.tool = "reasoning" then e.toolOutcome
  else if step.tool = "tavily" then e.toolOutcome
  else if step.tool = "blockchain_rpc" then e.toolOutcome
  else Except.error ("Unknown tool: " ++ step.tool)

/-- The executor instance's mutable fields (`stepResults`, `totalSpent`),
plus instrumentation logs of the `confirmPayment` / `refundPayment`
invocations (needed to state that the scheduler confirms / refunds). -/
structure ExecState where
  stepResults : List StepResultT
  totalSpent : Rat
  confirms : List String
  refunds : List String

/-- A freshly constructed `Executor` (`stepResults = []`, `totalSpent = 0`). -/
def initExec : ExecState := ⟨[], 0, [], []⟩

/-- The body of `Executor.executeAll`'s `for` loop, iterating over the
remaining steps; `i` counts loop iterations for indexing the environment.
Returns the executor state and the `halted` flag. -/
def runSteps (hasContract : Bool) (env : Nat → EnvStep) :
    Nat → List StepT → ExecState → ExecState × Bool
  | _, [], st => (st, false)
  | i, step :: rest, st =>
    if (authorizePayment hasContract (env i) step).authorized then
      match executeToolOutcome (env i) step with
      | Except.ok out =>
        runSteps hasContract env (i + 1) rest
          { stepResults := st.stepResults ++
              [⟨step.id, step.index, .completed, step.tool, some out.1,
                costPerTool step.tool,
                (authorizePayment hasContract (env i) step).tx_hash, none, out.2⟩],
            totalSpent := st.totalSpent + costPerTool step.tool,
            confirms := st.confirms ++ [step.id],
            refunds := st.refunds }
      | Except.error msg =>
        runSteps hasContract env (i + 1) rest
          { stepResults := st.stepResults ++
              [⟨step.id, step.index, .failed, step.tool, none, 0,
                (authorizePayment hasContract (env i) step).tx_hash, some msg, []⟩],
            totalSpent := st.totalSpent,
            confirms := st.confirms,
            refunds := st.refunds ++ [step.id] }
    else
      ({ st with stepResults := st.stepResults ++
          [⟨step.id, step.index, .payment_denied, step.tool, none, 0, none,
            some ((authorizePayment hasContract (env i) step).error.getD
              "x402 payment authorization denied"), []⟩] },
        true)

/-- `Executor.executeAll`: runs the loop over `plan.steps` on the instance
state `st` and returns (final state, halted); the returned `results` and
`totalSpent` of the source are the fields of the final state. -/
def executeAll (hasContract : Bool) (env : Nat → EnvStep) (st : ExecState)
    (plan : PlanT) : ExecState × Bool :=
  runSteps hasContract env 0 plan.steps st

/-- Σ `actual_cost_usd` over `completed` results. -/
def sumCompleted (rs : List StepResultT) : Rat :=
  ((rs.filter (fun r => decide (r.status = .completed))).map
    (fun r => r.actual_cost_usd)).sum

end Agent

namespace Agent

lemma costPerTool_nonneg (t : String) : 0 ≤ costPerTool t := by
  unfold costPerTool
  repeat' split
  all_goals norm_num

lemma sumCompleted_nil : sumCompleted [] = 0 := rfl

lemma sumCompleted_cons (r : StepResultT) (rs : List StepResultT) :
    sumCompleted (r :: rs)
      = (if r.status = .completed then r.actual_cost_usd else 0) + sumCompleted rs := by
  unfold sumCompleted
  by_cases h : r.status = .completed <;> simp [List.filter_cons, h]

lemma forall₂_mem_right {α β : Type} {P : α → β → Prop} {l₁ : List α} {l₂ : List β}
    (h : List.Forall₂ P l₁ l₂) {y : β} (hy : y ∈ l₂) : ∃ x ∈ l₁, P x y := by
  induction h with
  | nil => cases hy
  | cons hab _ ih =>
    rcases List.mem_cons.mp hy with hy | hy
    · subst hy
      exact ⟨_, List.mem_cons_self _ _, hab⟩
    · obtain ⟨x, hx, hp⟩ := ih hy
      exact ⟨x, List.mem_cons_of_mem _ hx, hp⟩

lemma pairwise_take_get {α : Type} {R : α → α → Prop} :
    ∀ {l : List α} {k : Nat} {a : α}, l.Pairwise R → l[k]? = some a →
      ∀ x ∈ l.take k, R x a := by
  intro l
  induction l with
  | nil => intro k a _ hk; simp at hk
  | cons b l ih =>
    intro k a hp hk x hx
    cases k with
    | zero => simp at hx
    | succ k =>
      rw [List.getElem?_cons_succ] at hk
      rw [List.take_succ_cons] at hx
      rcases List.mem_cons.mp hx with hx | hx
      · subst hx
        exact (List.pairwise_cons.mp hp).1 a
          (List.getElem?_mem hk)
      · exact ih (List.pairwise_cons.mp hp).2 hk x hx

/-- Shape of one `executeAll` run: results are appended to the instance
state, spend grows by the completed results' costs, and the appended block
is either one (completed-or-failed) result per step (no halt) or such
results for a prefix of the steps followed by a single `payment_denied`
result (halt). -/
lemma runSteps_shape (hasContract : Bool) (env : Nat → EnvStep) :
    ∀ (steps : List StepT) (i : Nat) (st : ExecState),
      ∃ new : List StepResultT,
        (runSteps hasContract env i steps st).1.stepResults = st.stepResults ++ new
        ∧ (runSteps hasContract env i steps st).1.totalSpent
            = st.totalSpent + sumCompleted new
        ∧ (∀ r ∈ new, 0 ≤ r.actual_cost_usd)
        ∧ ((runSteps hasContract env i steps st).2 = false →
            (∀ r ∈ new, r.status = .completed ∨ r.status = .failed)
            ∧ List.Forall₂ (fun s r => r.step_id = s.id ∧ r.index = s.index) steps new)
        ∧ ((runSteps hasContract env i steps st).2 = true →
            ∃ (pre : List StepResultT) (d : StepResultT) (k : Nat) (stp : StepT),
              new = pre ++ [d] ∧ steps[k]? = some stp ∧ pre.length = k
              ∧ d.status = .payment_denied ∧ d.index = stp.index ∧ d.step_id = stp.id
              ∧ (∀ r ∈ pre, r.status = .completed ∨ r.status = .failed)
              ∧ List.Forall₂ (fun s r => r.step_id = s.id ∧ r.index = s.index)
                  (steps.take k) pre) := by
  intro steps
  induction steps with
  | nil =>
    intro i st
    refine ⟨[], by simp [runSteps], by simp [runSteps, sumCompleted_nil], by simp, ?_, ?_⟩
    · intro _
      exact ⟨by simp, List.Forall₂.nil⟩
    · intro h
      simp [runSteps] at h
  | cons step rest ih =>
    intro i st
    by_cases hauth : (authorizePayment hasContract (env i) step).authorized = true
    · cases hout : executeToolOutcome (env i) step with
      | ok out =>
        have hrun : runSteps hasContract env i (step :: rest) st
            = runSteps hasContract env (i + 1) rest
              { stepResults := st.stepResults ++
                  [⟨step.id, step.index, .completed, step.tool, some out.1,
                    costPerTool step.tool,
                    (authorizePayment hasContract (env i) step).tx_hash, none, out.2⟩],
                totalSpent := st.totalSpent + costPerTool step.tool,
                confirms := st.confirms ++ [step.id],
                refunds := st.refunds } := by
          simp only [runSteps]
          rw [if_pos hauth, hout]
        obtain ⟨new', h1, h2, h3, h4, h5⟩ := ih (i + 1)
          { stepResults := st.stepResults ++
              [⟨step.id, step.index, .completed, step.tool, some out.1,
                costPerTool step.tool,
                (authorizePayment hasContract (env i) step).tx_hash, none, out.2⟩],
            totalSpent := st.totalSpent + costPerTool step.tool,
            confirms := st.confirms ++ [step.id],
            refunds := st.refunds }
        refine ⟨⟨step.id, step.index, .completed, step.tool, some out.1,
            costPerTool step.tool,
            (authorizePayment hasContract (env i) step).tx_hash, none, out.2⟩ :: new',
          ?_, ?_, ?_, ?_, ?_⟩
        · rw [hrun, h1]
          simp
        · rw [hrun, h2, sumCompleted_cons]
          simp [add_assoc]
        · intro r hr
          rcases List.mem_cons.mp hr with hr | hr
          · subst hr
            exact costPerTool_nonneg step.tool
          · exact h3 r hr
        · intro hhalt
          rw [hrun] at hhalt
          obtain ⟨hstat, hfa⟩ := h4 hhalt
          refine ⟨?_, List.Forall₂.cons ⟨rfl, rfl⟩ hfa⟩
          intro r hr
          rcases List.mem_cons.mp hr with hr | hr
          · subst hr
            exact Or.inl rfl
          · exact hstat r hr
        · intro hhalt
          rw [hrun] at hhalt
          obtain ⟨pre', d, k, stp, hnew, hk, hlen, hd1, hd2, hd3, hpre, hfa⟩ := h5 hhalt
          refine ⟨⟨step.id, step.index, .completed, step.tool, some out.1,
              costPerTool step.tool,
              (authorizePayment hasContract (env i) step).tx_hash, none, out.2⟩ :: pre',
            d, k + 1, stp, ?_, ?_, ?_, hd1, hd2, hd3, ?_, ?_⟩
          · rw [hnew]
            rfl
          · rw [List.getElem?_cons_succ]
            exact hk
          · simp [hlen]
          · intro r hr
            rcases List.mem_cons.mp hr with hr | hr
            · subst hr
              exact Or.inl rfl
            · exact hpre r hr
          · rw [List.take_succ_cons]
            exact List.Forall₂.cons ⟨rfl, rfl⟩ hfa
      | error msg =>
        have hrun : runSteps hasContract env i (step :: rest) st
            = runSteps hasContract env (i + 1) rest
              { stepResults := st.stepResults ++
                  [⟨step.id, step.index, .failed, step.tool, none, 0,
                    (authorizePayment hasContract (env i) step).tx_hash, some msg, []⟩],
                totalSpent := st.totalSpent,
                confirms := st.confirms,
                refunds := st.refunds ++ [step.id] } := by
          simp only [runSteps]
          rw [if_pos hauth, hout]
        obtain ⟨new', h1, h2, h3, h4, h5⟩ := ih (i + 1)
          { stepResults := st.stepResults ++
              [⟨step.id, step.index, .failed, step.tool, none, 0,
                (authorizePayment hasContract (env i) step).tx_hash, some msg, []⟩],
            totalSpent := st.totalSpent,
            confirms := st.confirms,
            refunds := st.refunds ++ [step.id] }
        refine ⟨⟨step.id, step.index, .failed, step.tool, none, 0,
            (authorizePayment hasContract (env i) step).tx_hash, some msg, []⟩ :: new',
          ?_, ?_, ?_, ?_, ?_⟩
        · rw [hrun, h1]
          simp
        · rw [hrun, h2, sumCompleted_cons]
          simp
        · intro r hr
          rcases List.mem_cons.mp hr with hr | hr
          · subst hr
            norm_num
          · exact h3 r hr
        · intro hhalt
          rw [hrun] at hhalt
          obtain ⟨hstat, hfa⟩ := h4 hhalt
          refine ⟨?_, List.Forall₂.cons ⟨rfl, rfl⟩ hfa⟩
          intro r hr
          rcases List.mem_cons.mp hr with hr | hr
          · subst hr
            exact Or.inr rfl
          · exact hstat r hr
        · intro hhalt
          rw [hrun] at hhalt
          obtain ⟨pre', d, k, stp, hnew, hk, hlen, hd1, hd2, hd3, hpre, hfa⟩ := h5 hhalt
          refine ⟨⟨step.id, step.index, .failed, step.tool, none, 0,
              (authorizePayment hasContract (env i) step).tx_hash, some msg, []⟩ :: pre',
            d, k + 1, stp, ?_, ?_, ?_, hd1, hd2, hd3, ?_, ?_⟩
          · rw [hnew]
            rfl
          · rw [List.getElem?_cons_succ]
            exact hk
          · simp [hlen]
          · intro r hr
            rcases List.mem_cons.mp hr with hr | hr
            · subst hr
              exact Or.inr rfl
            · exact hpre r hr
          · rw [List.take_succ_cons]
            exact List.Forall₂.cons ⟨rfl, rfl⟩ hfa
    · have hrun : runSteps hasContract env i (step :: rest) st
          = ({ st with stepResults := st.stepResults ++
              [⟨step.id, step.index, .payment_denied, step.tool, none, 0, none,
                some ((authorizePayment hasContract (env i) step).error.getD
                  "x402 payment authorization denied"), []⟩] }, true) := by
        simp only [runSteps]
        rw [if_neg hauth]
      refine ⟨[⟨step.id, step.index, .payment_denied, step.tool, none, 0, none,
          some ((authorizePayment hasContract (env i) step).error.getD
            "x402 payment authorization denied"), []⟩], ?_, ?_, ?_, ?_, ?_⟩
      · rw [hrun]
      · rw [hrun, sumCompleted_cons]
        simp [sumCompleted_nil]
      · intro r hr
        rcases List.mem_cons.mp hr with hr | hr
        · subst hr
          norm_num
        · cases hr
      · intro hhalt
        rw [hrun] at hhalt
        cases hhalt
      · intro _
        exact ⟨[], ⟨step.id, step.index, .payment_denied, step.tool, none, 0, none,
            some ((authorizePayment hasContract (env i) step).error.getD
              "x402 payment authorization denied"), []⟩, 0, step,
          by simp, by simp, rfl, rfl, rfl, rfl, by simp, by simp⟩

end Agent

namespace Agent

/-- The `StepResult` produced for a step whose authorization succeeded. -/
def okStepRes (hasContract : Bool) (e : EnvStep) (stp : StepT) : StepResultT :=
  match executeToolOutcome e stp with
  | .ok out => ⟨stp.id, stp.index, .completed, stp.tool, some out.1,
      costPerTool stp.tool, (authorizePayment hasContract e stp).tx_hash, none, out.2⟩
  | .error msg => ⟨stp.id, stp.index, .failed, stp.tool, none, 0,
      (authorizePayment hasContract e stp).tx_hash, some msg, []⟩

def okResults (hasContract : Bool) (env : Nat → EnvStep) :
    Nat → List StepT → List StepResultT
  | _, [] => []
  | i, stp :: rest =>
    okStepRes hasContract (env i) stp :: okResults hasContract env (i + 1) rest

def okSpent (env : Nat → EnvStep) : Nat → List StepT → Rat
  | _, [] => 0
  | i, stp :: rest =>
    (match executeToolOutcome (env i) stp with
      | .ok _ => costPerTool stp.tool
      | .error _ => 0) + okSpent env (i + 1) rest

def okRefunds (env : Nat → EnvStep) : Nat → List StepT → List String
  | _, [] => []
  | i, stp :: rest =>
    (match executeToolOutcome (env i) stp with
      | .ok _ => ([] : List String)
      | .error _ => [stp.id]) ++ okRefunds env (i + 1) rest

def okConfirms (env : Nat → EnvStep) : Nat → List StepT → List String
  | _, [] => []
  | i, stp :: rest =>
    (match executeToolOutcome (env i) stp with
      | .ok _ => [stp.id]
      | .error _ => ([] : List String)) ++ okConfirms env (i + 1) rest

/-- When every step's authorization succeeds, the loop never halts and
produces exactly one result per step, confirming completed steps and
refunding failed ones. -/
lemma runSteps_all_auth (hasContract : Bool) (env : Nat → EnvStep) :
    ∀ (steps : List StepT) (i : Nat) (st : ExecState),
      (∀ j stp, steps[j]? = some stp →
        (authorizePayment hasContract (env (i + j)) stp).authorized = true) →
      runSteps hasContract env i steps st
        = ({ stepResults := st.stepResults ++ okResults hasContract env i steps,
             totalSpent := st.totalSpent + okSpent env i steps,
             confirms := st.confirms ++ okConfirms env i steps,
             refunds := st.refunds ++ okRefunds env i steps }, false) := by
  intro steps
  induction steps with
  | nil =>
    intro i st _
    cases st
    simp [runSteps, okResults, okSpent, okConfirms, okRefunds]
  | cons step rest ih =>
    intro i st h
    have hauth0 : (authorizePayment hasContract (env i) step).authorized = true := by
      have := h 0 step (by simp)
      simpa using this
    have hrest : ∀ j stp, rest[j]? = some stp →
        (authorizePayment hasContract (env (i + 1 + j)) stp).authorized = true := by
      intro j stp hj
      have := h (j + 1) stp (by simpa using hj)
      rw [show i + (j + 1) = i + 1 + j by omega] at this
      exact this
    cases hout : executeToolOutcome (env i) step with
    | ok out =>
      have hrun : runSteps hasContract env i (step :: rest) st
          = runSteps hasContract env (i + 1) rest
            { stepResults := st.stepResults ++
                [⟨step.id, step.index, .completed, step.tool, some out.1,
                  costPerTool step.tool,
                  (authorizePayment hasContract (env i) step).tx_hash, none, out.2⟩],
              totalSpent := st.totalSpent + costPerTool step.tool,
              confirms := st.confirms ++ [step.id],
              refunds := st.refunds } := by
        simp only [runSteps]
        rw [if_pos hauth0, hout]
      rw [hrun, ih (i + 1) _ hrest]
      simp [okResults, okSpent, okConfirms, okRefunds, okStepRes, hout, add_assoc]
    | error msg =>
      have hrun : runSteps hasContract env i (step :: rest) st
          = runSteps hasContract env (i + 1) rest
            { stepResults := st.stepResults ++
                [⟨step.id, step.index, .failed, step.tool, none, 0,
                  (authorizePayment hasContract (env i) step).tx_hash, some msg, []⟩],
              totalSpent := st.totalSpent,
              confirms := st.confirms,
              refunds := st.refunds ++ [step.id] } := by
        simp only [runSteps]
        rw [if_pos hauth0, hout]
      rw [hrun, ih (i + 1) _ hrest]
      simp [okResults, okSpent, okConfirms, okRefunds, okStepRes, hout, add_assoc]

lemma okResults_length (hasContract : Bool) (env : Nat → EnvStep) :
    ∀ (l : List StepT) (i : Nat), (okResults hasContract env i l).length = l.length := by
  intro l
  induction l with
  | nil => intro i; rfl
  | cons stp rest ih => intro i; simp [okResults, ih]

lemma okResults_getElem? (hasContract : Bool) (env : Nat → EnvStep) :
    ∀ (l : List StepT) (i j : Nat),
      (okResults hasContract env i l)[j]?
        = l[j]?.map (fun stp => okStepRes hasContract (env (i + j)) stp) := by
  intro l
  induction l with
  | nil => intro i j; simp [okResults]
  | cons stp rest ih =>
    intro i j
    cases j with
    | zero => simp [okResults]
    | succ j =>
      simp only [okResults, List.getElem?_cons_succ, ih (i + 1) j]
      rw [show i + 1 + j = i + (j + 1) by omega]

lemma okRefunds_mem (env : Nat → EnvStep) :
    ∀ (l : List StepT) (i k : Nat) (stp : StepT) (msg : String),
      l[k]? = some stp → executeToolOutcome (env (i + k)) stp = .error msg →
      stp.id ∈ okRefunds env i l := by
  intro l
  induction l with
  | nil => intro i k stp msg hk; simp at hk
  | cons s rest ih =>
    intro i k stp msg hk hfail
    cases k with
    | zero =>
      simp only [List.getElem?_cons_zero, Option.some.injEq] at hk
      subst hk
      rw [Nat.add_zero] at hfail
      simp [okRefunds, hfail]
    | succ k =>
      rw [List.getElem?_cons_succ] at hk
      rw [show i + (k + 1) = i + 1 + k by omega] at hfail
      have := ih (i + 1) k stp msg hk hfail
      unfold okRefunds
      exact List.mem_append_right _ this

lemma okSpent_eq_sumCompleted (hasContract : Bool) (env : Nat → EnvStep) :
    ∀ (l : List StepT) (i : Nat),
      okSpent env i l = sumCompleted (okResults hasContract env i l) := by
  intro l
  induction l with
  | nil => intro i; simp [okSpent, okResults, sumCompleted_nil]
  | cons stp rest ih =>
    intro i
    rw [show okResults hasContract env i (stp :: rest)
        = okStepRes hasContract (env i) stp :: okResults hasContract env (i + 1) rest
      from rfl]
    rw [sumCompleted_cons, ← ih (i + 1)]
    have hstep : okSpent env i (stp :: rest)
        = (match executeToolOutcome (env i) stp with
            | .ok _ => costPerTool stp.tool
            | .error _ => 0) + okSpent env (i + 1) rest := rfl
    rw [hstep]
    cases hout : executeToolOutcome (env i) stp <;> simp [okStepRes, hout]

end Agent

namespace Agent

lemma dropLast_append_single {α : Type} (l : List α) (a : α) :
    (l ++ [a]).dropLast = l :=
  List.dropLast_concat

lemma sumCompleted_nonneg {rs : List StepResultT}
    (h : ∀ r ∈ rs, 0 ≤ r.actual_cost_usd) : 0 ≤ sumCompleted rs := by
  unfold sumCompleted
  refine List.sum_nonneg ?_
  intro x hx
  obtain ⟨r, hr, hrx⟩ := List.mem_map.mp hx
  rw [← hrx]
  exact h r (List.mem_of_mem_filter hr)

/-- The environment in which every tool call succeeds with output
`"out"` and no sources, and no contract-call transport failure occurs. -/
def envAllOk : Nat → EnvStep := fun _ => ⟨none, "tx", .ok ("out", [])⟩

/-- Scenario B of the specification: 3 steps, per-step estimated cost 0.3,
`maxBudget` 0.5. -/
def scenarioB : PlanT :=
  ⟨"sess-b", "q",
   [⟨"s1", 0, "d1", "reasoning", 3/10⟩,
    ⟨"s2", 1, "d2", "reasoning", 3/10⟩,
    ⟨"s3", 2, "d3", "reasoning", 3/10⟩], 3, 9/10, 1/2⟩

/-- C4 (code bug evaluated on the code): on Scenario B the scheduler as
implemented completes all three steps with `halted = false` — the simulated
`authorizePayment` never checks the budget (its `remaining` local is dead
code) and so never denies step 2, contradicting the specified
`[completed, payment_denied]` outcome with `steps_executed = 1`. -/
theorem scenarioB_executes_all_steps :
    (executeAll false envAllOk initExec scenarioB).1.stepResults.map (fun r => r.status)
      = [.completed, .completed, .completed]
    ∧ (executeAll false envAllOk initExec scenarioB).2 = false
    ∧ ((executeAll false envAllOk initExec scenarioB).1.stepResults.filter
        (fun r => decide (r.status = .completed))).length = 3 :=
  ⟨by decide, by decide, by decide⟩

/-- C5: if any step's payment authorization is denied (which includes a
transport failure of the authorization call itself), the run is halted, the
`payment_denied` result is the last element of the returned result list —
so every earlier result is still present and no later-indexed step appears —
and every earlier result is a completed or failed step of a strictly
smaller index.  The plan's step indices are assumed strictly increasing
(§3 of the spec; the planner emits contiguous 0-based indices). -/
theorem executor_denial_halts (hasContract : Bool) (env : Nat → EnvStep)
    (plan : PlanT) (r : StepResultT)
    (hmono : plan.steps.Pairwise (fun a b => a.index < b.index))
    (hr : r ∈ (executeAll hasContract env initExec plan).1.stepResults)
    (hden : r.status = .payment_denied) :
    (executeAll hasContract env initExec plan).2 = true
    ∧ (executeAll hasContract env initExec plan).1.stepResults
        = (executeAll hasContract env initExec plan).1.stepResults.dropLast ++ [r]
    ∧ ∀ r' ∈ (executeAll hasContract env initExec plan).1.stepResults.dropLast,
        (r'.status = .completed ∨ r'.status = .failed) ∧ r'.index < r.index := by
  obtain ⟨new, h1, _, _, h4, h5⟩ := runSteps_shape hasContract env plan.steps 0 initExec
  have h1' : (executeAll hasContract env initExec plan).1.stepResults = new := by
    rw [show (executeAll hasContract env initExec plan).1.stepResults
        = (runSteps hasContract env 0 plan.steps initExec).1.stepResults from rfl, h1]
    rfl
  cases hhalt : (executeAll hasContract env initExec plan).2 with
  | false =>
    exfalso
    obtain ⟨hstat, _⟩ := h4 hhalt
    rw [h1'] at hr
    rcases hstat r hr with hc | hf
    · rw [hden] at hc
      cases hc
    · rw [hden] at hf
      cases hf
  | true =>
    obtain ⟨pre, d, k, stp, hnew, hk, hlen, hd1, hd2, _, hpre, hfa⟩ := h5 hhalt
    have hrd : r = d := by
      rw [h1', hnew] at hr
      rcases List.mem_append.mp hr with hrp | hrd
      · exfalso
        rcases hpre r hrp with hc | hf
        · rw [hden] at hc
          cases hc
        · rw [hden] at hf
          cases hf
      · simpa using hrd
    subst hrd
    have hresults : (executeAll hasContract env initExec plan).1.stepResults
        = pre ++ [r] := by rw [h1', hnew]
    have hdrop : (executeAll hasContract env initExec plan).1.stepResults.dropLast
        = pre := by rw [hresults, dropLast_append_single]
    refine ⟨rfl, by rw [hdrop, hresults], ?_⟩
    intro r' hr'
    rw [hdrop] at hr'
    refine ⟨hpre r' hr', ?_⟩
    obtain ⟨s, hs, _, hidx⟩ := forall₂_mem_right hfa hr'
    rw [hidx, hd2]
    exact pairwise_take_get hmono hk s hs

/-- The one-step plan and denying environment used by the C5 witness. -/
def planOne : PlanT :=
  ⟨"sess-1", "q", [⟨"s1", 0, "d1", "reasoning", 1/100⟩], 1, 1/100, 1⟩

def envDeny : Nat → EnvStep := fun _ => ⟨some "transport down", "tx", .ok ("out", [])⟩

def deniedRes : StepResultT :=
  ⟨"s1", 0, .payment_denied, "reasoning", none, 0, none, some "transport down", []⟩

theorem executor_denial_halts_witness :
    (executeAll true envDeny initExec planOne).2 = true
    ∧ (executeAll true envDeny initExec planOne).1.stepResults
        = (executeAll true envDeny initExec planOne).1.stepResults.dropLast ++ [deniedRes]
    ∧ ∀ r' ∈ (executeAll true envDeny initExec planOne).1.stepResults.dropLast,
        (r'.status = .completed ∨ r'.status = .failed) ∧ r'.index < deniedRes.index :=
  executor_denial_halts true envDeny planOne deniedRes (by simp [planOne])
    (by decide) (by decide)

/-- C6: when every authorization succeeds and step `k`'s tool invocation
fails (throws, returns a non-success response, or — as the witness
instantiates — has an unrecognized `toolType`, which makes `executeTool`
throw `Unknown tool: ...`), the scheduler emits a `failed` result carrying
the error with an actual cost of 0 for that step, calls `refundPayment` for
it, processes every step of the plan (the run is not halted), and the total
spend equals the sum over completed results only, excluding the failure. -/
theorem executor_tool_failure_contract (hasContract : Bool) (env : Nat → EnvStep)
    (plan : PlanT) (k : Nat) (stp : StepT) (msg : String)
    (hk : plan.steps[k]? = some stp)
    (hfail : executeToolOutcome (env k) stp = .error msg)
    (hauth : ∀ j s, plan.steps[j]? = some s →
      (authorizePayment hasContract (env j) s).authorized = true) :
    (executeAll hasContract env initExec plan).2 = false
    ∧ (executeAll hasContract env initExec plan).1.stepResults.length
        = plan.steps.length
    ∧ (executeAll hasContract env initExec plan).1.stepResults[k]?.map
        (fun r => r.status) = some .failed
    ∧ (executeAll hasContract env initExec plan).1.stepResults[k]?.map
        (fun r => r.error) = some (some msg)
    ∧ (executeAll hasContract env initExec plan).1.stepResults[k]?.map
        (fun r => r.actual_cost_usd) = some 0
    ∧ (executeAll hasContract env initExec plan).1.stepResults[k]?.map
        (fun r => r.step_id) = some stp.id
    ∧ stp.id ∈ (executeAll hasContract env initExec plan).1.refunds
    ∧ (executeAll hasContract env initExec plan).1.totalSpent
        = sumCompleted (executeAll hasContract env initExec plan).1.stepResults := by
  have hauth' : ∀ j s, plan.steps[j]? = some s →
      (authorizePayment hasContract (env (0 + j)) s).authorized = true := by
    intro j s hj
    rw [Nat.zero_add]
    exact hauth j s hj
  have hrun := runSteps_all_auth hasContract env plan.steps 0 initExec hauth'
  have hexec : executeAll hasContract env initExec plan
      = ({ stepResults := okResults hasContract env 0 plan.steps,
           totalSpent := okSpent env 0 plan.steps,
           confirms := okConfirms env 0 plan.steps,
           refunds := okRefunds env 0 plan.steps }, false) := by
    rw [show executeAll hasContract env initExec plan
        = runSteps hasContract env 0 plan.steps initExec from rfl, hrun]
    simp [initExec]
  rw [hexec]
  have hget : (okResults hasContract env 0 plan.steps)[k]?
      = some (okStepRes hasContract (env k) stp) := by
    rw [okResults_getElem?, hk]
    simp
  have hres : okStepRes hasContract (env k) stp
      = ⟨stp.id, stp.index, .failed, stp.tool, none, 0,
          (authorizePayment hasContract (env k) stp).tx_hash, some msg, []⟩ := by
    unfold okStepRes
    rw [hfail]
  refine ⟨rfl, ?_, ?_, ?_, ?_, ?_, ?_, ?_⟩
  · exact okResults_length hasContract env plan.steps 0
  · simp [hget, hres]
  · simp [hget, hres]
  · simp [hget, hres]
  · simp [hget, hres]
  · exact okRefunds_mem env plan.steps 0 k stp msg hk (by rw [Nat.zero_add]; exact hfail)
  · exact okSpent_eq_sumCompleted hasContract env plan.steps 0

/-- The plan with one unknown-tool step used by the C6 witness. -/
def planBogus : PlanT :=
  ⟨"sess-x", "q", [⟨"s1", 0, "d1", "bogus", 1/100⟩], 1, 1/100, 1⟩

theorem executor_tool_failure_contract_witness :
    (executeAll false envAllOk initExec planBogus).2 = false
    ∧ (executeAll false envAllOk initExec planBogus).1.stepResults.length
        = planBogus.steps.length
    ∧ (executeAll false envAllOk initExec planBogus).1.stepResults[0]?.map
        (fun r => r.status) = some .failed
    ∧ (executeAll false envAllOk initExec planBogus).1.stepResults[0]?.map
        (fun r => r.error) = some (some "Unknown tool: bogus")
    ∧ (executeAll false envAllOk initExec planBogus).1.stepResults[0]?.map
        (fun r => r.actual_cost_usd) = some 0
    ∧ (executeAll false envAllOk initExec planBogus).1.stepResults[0]?.map
        (fun r => r.step_id) = some "s1"
    ∧ "s1" ∈ (executeAll false envAllOk initExec planBogus).1.refunds
    ∧ (executeAll false envAllOk initExec planBogus).1.totalSpent
        = sumCompleted (executeAll false envAllOk initExec planBogus).1.stepResults :=
  executor_tool_failure_contract false envAllOk planBogus 0
    ⟨"s1", 0, "d1", "bogus", 1/100⟩ "Unknown tool: bogus" rfl rfl
    (fun _ _ _ => rfl)

/-- C10: `stepResults` and `totalSpent` are instance fields that `executeAll`
only ever appends to and never resets, so a second `executeAll` on the same
`Executor` instance (any plan, any environment) returns a result list that
has the first run's entire result list as a prefix and a `totalSpent` that
is at least the first run's spend — the result is not a function of the plan
argument alone. -/
theorem executor_state_accumulates (hasContract : Bool) (env1 env2 : Nat → EnvStep)
    (plan1 plan2 : PlanT) :
    (executeAll hasContract env1 initExec plan1).1.stepResults
      <+: (executeAll hasContract env2
            (executeAll hasContract env1 initExec plan1).1 plan2).1.stepResults
    ∧ (executeAll hasContract env1 initExec plan1).1.totalSpent
      ≤ (executeAll hasContract env2
            (executeAll hasContract env1 initExec plan1).1 plan2).1.totalSpent := by
  obtain ⟨new, h1, h2, h3, _, _⟩ := runSteps_shape hasContract env2 plan2.steps 0
    (executeAll hasContract env1 initExec plan1).1
  constructor
  · exact ⟨new, h1.symm⟩
  · rw [show (executeAll hasContract env2
        (executeAll hasContract env1 initExec plan1).1 plan2).1.totalSpent
      = (runSteps hasContract env2 0 plan2.steps
          (executeAll hasContract env1 initExec plan1).1).1.totalSpent from rfl, h2]
    exact le_add_of_nonneg_right (sumCompleted_nonneg h3)

end Agent

namespace Agent

/-!
## Source deduplication — `agent/synthesizer.ts`

`deduplicateSources` deduplicates with a JS `Set` (exact string match,
first-occurrence order) and maps each unique string to a `SourceReference`;
for strings starting with `"http"` it derives the title through
`new URL(source).hostname`, which throws on unparseable input — modelled by
the `Except` result.  The `accessed_at` wall-clock field is omitted.
-/

/-- `SourceReference` of `agent/types.ts` (without the wall-clock
`accessed_at`). -/
structure SourceReference where
  url : String
  title : String
  relevance : String
deriving DecidableEq

/-- `source.startsWith("http")`. -/
def startsWithHttp (s : String) : Bool :=
  match s.toList with
  | 'h' :: 't' :: 't' :: 'p' :: _ => true
  | _ => false

/-- Splits `scheme "://" rest` at the first `"://"`. -/
def splitScheme : List Char → Option (List Char × List Char)
  | [] => none
  | ':' :: '/' :: '/' :: rest => some ([], rest)
  | c :: cs =>
    match splitScheme cs with
    | some (sch, rest) => some (c :: sch, rest)
    | none => none

/-- The host component: everything up to the first `/`, `?`, `#` or `:`. -/
def hostChars : List Char → List Char
  | [] => []
  | c :: cs =>
    if c = '/' ∨ c = '?' ∨ c = '#' ∨ c = ':' then [] else c :: hostChars cs

/-- Modelled from the spec: `new URL(source).hostname` of the WHATWG URL
platform builtin, which is not part of the repository.  The model accepts
`scheme://host...` with a nonempty alphabetic scheme and nonempty host and
rejects everything else (in particular any string without `"://"`, such as
`"httpx"`, which the platform parser also rejects for lack of a scheme). -/
def urlHostname (s : String) : Option String :=
  match splitScheme s.toList with
  | none => none
  | some (sch, rest) =>
    if sch ≠ [] ∧ sch.all (fun c => c.isAlpha) then
      if hostChars rest ≠ [] then some (String.mk (hostChars rest)) else none
    else none

/-- JS `[...new Set(sources)]`: first occurrences, in order. -/
def dedupAux (seen : List String) : List String → List String
  | [] => []
  | x :: xs =>
    if x ∈ seen then dedupAux seen xs else x :: dedupAux (x :: seen) xs

/-- `Array.prototype.map` over a callback that can throw: the first throw
aborts the whole map. -/
def mapExcept (f : String → Except String SourceReference) :
    List String → Except String (List SourceReference)
  | [] => .ok []
  | x :: xs =>
    match f x with
    | .error e => .error e
    | .ok r =>
      match mapExcept f xs with
      | .error e => .error e
      | .ok rs => .ok (r :: rs)

/-- `Synthesizer.deduplicateSources`. -/
def deduplicateSources (sources : List String) :
    Except String (List SourceReference) :=
  mapExcept
    (fun source =>
      if startsWithHttp source then
        match urlHostname source with
        | some h => .ok ⟨source, h, "primary"⟩
        | none => .error ("Invalid URL: " ++ source)
      else .ok ⟨"", source, "primary"⟩)
    (dedupAux [] sources)

end Agent

namespace Agent

lemma dedupAux_cons (seen : List String) (x : String) (xs : List String) :
    dedupAux seen (x :: xs)
      = if x ∈ seen then dedupAux seen xs else x :: dedupAux (x :: seen) xs := rfl

lemma dedupAux_mem : ∀ (l seen : List String) (s : String),
    s ∈ dedupAux seen l ↔ (s ∈ l ∧ s ∉ seen) := by
  intro l
  induction l with
  | nil => intro seen s; simp [dedupAux]
  | cons x xs ih =>
    intro seen s
    by_cases hx : x ∈ seen
    · rw [dedupAux_cons, if_pos hx]
      rw [ih]
      constructor
      · rintro ⟨hs, hns⟩
        exact ⟨List.mem_cons_of_mem _ hs, hns⟩
      · rintro ⟨hs, hns⟩
        rcases List.mem_cons.mp hs with hsx | hsl
        · subst hsx
          exact absurd hx hns
        · exact ⟨hsl, hns⟩
    · rw [dedupAux_cons, if_neg hx]
      constructor
      · intro hs
        rcases List.mem_cons.mp hs with hsx | hsl
        · subst hsx
          exact ⟨List.mem_cons_self _ _, hx⟩
        · obtain ⟨h1, h2⟩ := (ih (x :: seen) s).mp hsl
          exact ⟨List.mem_cons_of_mem _ h1,
            fun hq => h2 (List.mem_cons_of_mem _ hq)⟩
      · rintro ⟨hs, hns⟩
        by_cases hsx : s = x
        · subst hsx
          exact List.mem_cons_self _ _
        · rcases List.mem_cons.mp hs with hsx' | hsl
          · exact absurd hsx' hsx
          · refine List.mem_cons_of_mem _ ((ih (x :: seen) s).mpr ⟨hsl, ?_⟩)
            intro hq
            rcases List.mem_cons.mp hq with hq | hq
            · exact hsx hq
            · exact hns hq

lemma dedupAux_nodup : ∀ (l seen : List String), (dedupAux seen l).Nodup := by
  intro l
  induction l with
  | nil => intro seen; simp [dedupAux]
  | cons x xs ih =>
    intro seen
    by_cases hx : x ∈ seen
    · rw [dedupAux_cons, if_pos hx]
      exact ih seen
    · rw [dedupAux_cons, if_neg hx]
      refine List.nodup_cons.mpr ⟨?_, ih (x :: seen)⟩
      intro hq
      exact ((dedupAux_mem xs (x :: seen) x).mp hq).2 (List.mem_cons_self _ _)

lemma mapExcept_error {f : String → Except String SourceReference} :
    ∀ (l : List String) (s : String) (e : String),
      s ∈ l → f s = .error e → ∃ e', mapExcept f l = .error e' := by
  intro l
  induction l with
  | nil => intro s e hs; cases hs
  | cons x xs ih =>
    intro s e hs hfe
    rcases List.mem_cons.mp hs with hsx | hsl
    · subst hsx
      exact ⟨e, by unfold mapExcept; rw [hfe]⟩
    · cases hfx : f x with
      | error e'' => exact ⟨e'', by unfold mapExcept; rw [hfx]⟩
      | ok r =>
        obtain ⟨e', he'⟩ := ih s e hsl hfe
        exact ⟨e', by unfold mapExcept; rw [hfx, he']⟩

lemma mapExcept_ok {f : String → Except String SourceReference}
    {P : String → SourceReference → Prop} :
    ∀ (l : List String), (∀ x ∈ l, ∃ r, f x = .ok r ∧ P x r) →
      ∃ rs, mapExcept f l = .ok rs ∧ List.Forall₂ P l rs := by
  intro l
  induction l with
  | nil => intro _; exact ⟨[], rfl, List.Forall₂.nil⟩
  | cons x xs ih =>
    intro h
    obtain ⟨r, hr, hpr⟩ := h x (List.mem_cons_self _ _)
    obtain ⟨rs, hrs, hfa⟩ := ih (fun y hy => h y (List.mem_cons_of_mem _ hy))
    exact ⟨r :: rs, by unfold mapExcept; rw [hr, hrs], List.Forall₂.cons hpr hfa⟩

/-- C9: `deduplicateSources` is not total — for every input list containing
a string that starts with `"http"` but is rejected by the URL parser,
`new URL(source)` throws, so the whole deduplication throws instead of
returning a `SourceReference` list. -/
theorem deduplicateSources_throws (sources : List String) (s : String)
    (hs : s ∈ sources) (hhttp : startsWithHttp s = true)
    (hbad : urlHostname s = none) :
    ∃ e, deduplicateSources sources = .error e := by
  have hmem : s ∈ dedupAux [] sources :=
    (dedupAux_mem sources [] s).mpr ⟨hs, by simp⟩
  refine mapExcept_error (dedupAux [] sources) s ("Invalid URL: " ++ s) hmem ?_
  rw [if_pos hhttp, hbad]

theorem deduplicateSources_throws_witness :
    ∃ e, deduplicateSources ["httpx"] = .error e :=
  deduplicateSources_throws ["httpx"] "httpx" (by simp) rfl rfl

/-- C8 counterexample: on the input list `["httpx"]` the deduplication does
not return the deduplicated entries at all — `new URL("httpx")` throws — so
the claimed "for every input list, deduplicated output entries are the
distinct input strings, titled …" fails. -/
theorem deduplicateSources_not_total :
    deduplicateSources ["httpx"] = .error "Invalid URL: httpx"
    ∧ ∀ refs : List SourceReference, deduplicateSources ["httpx"] ≠ .ok refs := by
  refine ⟨rfl, ?_⟩
  intro refs h
  rw [show deduplicateSources ["httpx"] = .error "Invalid URL: httpx" from rfl] at h
  cases h

/-- C8 (amended): Scenario D holds exactly as specified — the three sources
deduplicate to exactly three entries, the two URLs titled by their host
`"a.com"` and the raw string otherwise; and in general, for every input list
whose `"http"`-prefixed members the URL parser accepts, the output is the
distinct input strings in first-occurrence order, titled by hostname for
URL entries (which also keep their `url`) and by the raw string otherwise. -/
theorem deduplicateSources_contract :
    (deduplicateSources ["https://a.com/x", "https://a.com/y", "internal-note"]
      = .ok [⟨"https://a.com/x", "a.com", "primary"⟩,
             ⟨"https://a.com/y", "a.com", "primary"⟩,
             ⟨"", "internal-note", "primary"⟩])
    ∧ (∀ sources : List String,
        (∀ s ∈ sources, startsWithHttp s = true → (urlHostname s).isSome = true) →
        ∃ refs, deduplicateSources sources = .ok refs
          ∧ (dedupAux [] sources).Nodup
          ∧ (∀ s, s ∈ dedupAux [] sources ↔ s ∈ sources)
          ∧ List.Forall₂ (fun s r =>
              (startsWithHttp s = true → r.url = s ∧ urlHostname s = some r.title
                ∧ r.relevance = "primary")
              ∧ (startsWithHttp s = false → r.url = "" ∧ r.title = s
                ∧ r.relevance = "primary"))
            (dedupAux [] sources) refs) := by
  constructor
  · rfl
  · intro sources hok
    have hfun : ∀ x ∈ dedupAux [] sources,
        ∃ r, (if startsWithHttp x then
                match urlHostname x with
                | some h => Except.ok (⟨x, h, "primary"⟩ : SourceReference)
                | none => Except.error ("Invalid URL: " ++ x)
              else Except.ok ⟨"", x, "primary"⟩) = Except.ok r
          ∧ ((startsWithHttp x = true → r.url = x ∧ urlHostname x = some r.title
                ∧ r.relevance = "primary")
             ∧ (startsWithHttp x = false → r.url = "" ∧ r.title = x
                ∧ r.relevance = "primary")) := by
      intro x hx
      have hxs : x ∈ sources := ((dedupAux_mem sources [] x).mp hx).1
      by_cases hh : startsWithHttp x = true
      · obtain ⟨h, hhost⟩ := Option.isSome_iff_exists.mp (hok x hxs hh)
        refine ⟨⟨x, h, "primary"⟩, by rw [if_pos hh, hhost], fun _ => ⟨rfl, hhost, rfl⟩,
          fun hq => ?_⟩
        rw [hh] at hq
        cases hq
      · refine ⟨⟨"", x, "primary"⟩, by rw [if_neg hh], fun hq => absurd hq hh,
          fun _ => ⟨rfl, rfl, rfl⟩⟩
    obtain ⟨refs, hrefs, hfa⟩ := mapExcept_ok (dedupAux [] sources) hfun
    exact ⟨refs, hrefs, dedupAux_nodup sources [],
      fun s => by rw [dedupAux_mem]; simp, hfa⟩

theorem deduplicateSources_contract_witness :
    ∃ refs, deduplicateSources ["https://a.com/x", "internal-note"] = .ok refs
      ∧ (dedupAux [] ["https://a.com/x", "internal-note"]).Nodup
      ∧ (∀ s, s ∈ dedupAux [] ["https://a.com/x", "internal-note"]
          ↔ s ∈ ["https://a.com/x", "internal-note"])
      ∧ List.Forall₂ (fun s r =>
          (startsWithHttp s = true → r.url = s ∧ urlHostname s = some r.title
            ∧ r.relevance = "primary")
          ∧ (startsWithHttp s = false → r.url = "" ∧ r.title = s
            ∧ r.relevance = "primary"))
        (dedupAux [] ["https://a.com/x", "internal-note"]) refs :=
  deduplicateSources_contract.2 ["https://a.com/x", "internal-note"] (by decide)

end Agent
